import Mathlib

/-!
Verification development for the screenpack updater script
(screenpack-updater.py).  The transformation engine is embedded shallowly:
each Python helper function becomes a Lean definition of the same name
(camel-cased), Python floats are modelled by rationals, Python dicts by
insertion-ordered association lists, and the regular expressions of the
source are translated into pattern-specific matching functions.
All definitions are executable.
-/

/-- Whitespace set of Python str.strip / regex backslash-s (ASCII part). -/
def pyIsWs (c : Char) : Bool :=
  c = ' ' || c = '\t' || c = '\n' || c = '\r' || c = Char.ofNat 11 || c = Char.ofNat 12

/-- The character class of the square-bracket regexes: space or tab only. -/
def isSpaceTab (c : Char) : Bool :=
  c = ' ' || c = '\t'

/-- Python str.lower on a character list (ASCII behaviour). -/
def lowerL (l : List Char) : List Char :=
  l.map Char.toLower

/-- Python str.lower on a string. -/
def lowerS (s : String) : String :=
  String.mk (lowerL s.data)

/-- Python str.strip on a character list. -/
def stripL (l : List Char) : List Char :=
  ((l.dropWhile pyIsWs).reverse.dropWhile pyIsWs).reverse

/-- Python str.strip on a string. -/
def pyStrip (s : String) : String :=
  String.mk (stripL s.data)

/-- Does the second list start with the first one? -/
def isPre : List Char → List Char → Bool
  | [], _ => true
  | _ :: _, [] => false
  | p :: ps, c :: cs => p = c && isPre ps cs

/-- Does the second list end with the first one? -/
def isSuf (p s : List Char) : Bool :=
  isPre p.reverse s.reverse

/-- Does the list contain the pattern as a contiguous sublist? -/
def containsSub (pat : List Char) : List Char → Bool
  | [] => isPre pat []
  | l@(_ :: t) => isPre pat l || containsSub pat t

/-- Python str.split(sep) semantics: splitting the empty string yields
one empty part, separators at the ends yield empty parts. -/
def splitOnC (sep : Char) : List Char → List (List Char)
  | [] => [[]]
  | c :: t =>
    let r := splitOnC sep t
    if c = sep then [] :: r
    else
      match r with
      | h :: rs => (c :: h) :: rs
      | [] => [[c]]

/-- Join pieces with a separator (Python str.join). -/
def joinL (sep : List Char) : List (List Char) → List Char
  | [] => []
  | [x] => x
  | x :: xs => x ++ sep ++ joinL sep xs

/-- Nonempty all-digit character run, as matched by a [0-9]+ group. -/
def allDig (l : List Char) : Bool :=
  !l.isEmpty && l.all Char.isDigit

/-- Numeric value of a digit run. -/
def digitsNat (l : List Char) : ℕ :=
  l.foldl (fun a c => a * 10 + (c.toNat - 48)) 0

/-- Decimal rendering of a natural number. -/
def natStr (n : ℕ) : String :=
  String.mk (Nat.toDigits 10 n)

/-- Decimal rendering of an integer. -/
def intStr (i : ℤ) : String :=
  if i < 0 then "-" ++ natStr i.natAbs else natStr i.natAbs

/-- Exponent tail of a Python float literal, applied to a parsed mantissa. -/
def parseExpTail (sgn : ℚ) (mant : ℚ) (rest : List Char) : Option ℚ :=
  match rest with
  | [] => some (sgn * mant)
  | e :: t =>
    if e = 'e' || e = 'E' then
      let p : ℤ × List Char :=
        match t with
        | '+' :: u => (1, u)
        | '-' :: u => (-1, u)
        | u => (1, u)
      if allDig p.2 then
        some (sgn * mant * (10 : ℚ) ^ (p.1 * (digitsNat p.2 : ℤ)))
      else none
    else none

/-- Model of Python float() on the decimal forms it accepts; values the
parser rejects (and the special inf/nan spellings) yield none. -/
def pyFloat? (s : String) : Option ℚ :=
  let cs := stripL s.data
  let p : ℚ × List Char :=
    match cs with
    | '+' :: t => (1, t)
    | '-' :: t => (-1, t)
    | t => (1, t)
  let ip := p.2.takeWhile Char.isDigit
  let cs1 := p.2.drop ip.length
  match cs1 with
  | '.' :: t =>
    let fp := t.takeWhile Char.isDigit
    let rest := t.drop fp.length
    if ip.isEmpty && fp.isEmpty then none
    else
      parseExpTail p.1 ((digitsNat (ip ++ fp) : ℚ) / (10 : ℚ) ^ fp.length) rest
  | rest =>
    if ip.isEmpty then none
    else parseExpTail p.1 (digitsNat ip : ℚ) rest

/-- Remove trailing zero characters. -/
def stripZeros (l : List Char) : List Char :=
  (l.reverse.dropWhile (· = '0')).reverse

/-- Left-pad a digit run with zeros to the given width. -/
def padZeroL (l : List Char) (n : ℕ) : List Char :=
  List.replicate (n - l.length) '0' ++ l

/-- Model of the C-style percent-g formatting used by the script
(f-strings with a g conversion).  Integral values print with no decimal
point; non-integral values print with up to six significant digits and
trailing zeros removed (a best-effort model of the float behaviour; the
aggregation claims only evaluate this on integral values). -/
def fmtG (q : ℚ) : String :=
  if q.den = 1 then intStr q.num
  else
    let sgnStr := if q < 0 then "-" else ""
    let a : ℚ := |q|
    let ip : ℕ := a.floor.toNat
    let ipDigits := (Nat.toDigits 10 ip).length
    let fracLen : ℕ := if ip = 0 then 6 else if 6 ≤ ipDigits then 0 else 6 - ipDigits
    let scaled : ℕ := ((a * (10 : ℚ) ^ fracLen) + 1 / 2).floor.toNat
    let ipart := scaled / 10 ^ fracLen
    let fpart := scaled % 10 ^ fracLen
    let fchars := stripZeros (padZeroL (Nat.toDigits 10 fpart) fracLen)
    if fchars.isEmpty then sgnStr ++ natStr ipart
    else sgnStr ++ natStr ipart ++ "." ++ String.mk fchars

/-- Shared shape of parse-xy-pair and parse-scale-pair: split on commas,
strip each part, parse with float(), defaulting empty / missing /
unparseable components to the given identity element. -/
def parsePairD (dflt : ℚ) (s : String) : ℚ × ℚ :=
  let parts := (splitOnC ',' s.data).map stripL
  let comp : ℕ → ℚ := fun i =>
    match parts.get? i with
    | some p => if p.isEmpty then dflt else (pyFloat? (String.mk p)).getD dflt
    | none => dflt
  (comp 0, comp 1)

/-- Render an aggregated pair the way the flush helpers do. -/
def fmtPair (x y : ℚ) : String :=
  fmtG x ++ ", " ++ fmtG y

/-- Association-list lookup (Python dict read). -/
def aget {α β : Type} [DecidableEq α] : List (α × β) → α → Option β
  | [], _ => none
  | (k', v) :: t, k => if k = k' then some v else aget t k

/-- Association-list write: update in place when the key is present
(keeping its position), append otherwise — Python dict assignment with
insertion order. -/
def aset {α β : Type} [DecidableEq α] : List (α × β) → α → β → List (α × β)
  | [], k, v => [(k, v)]
  | (k', v') :: t, k, v => if k = k' then (k, v) :: t else (k', v') :: aset t k v

/-- Association-list delete (Python dict del / pop). -/
def adel {α β : Type} [DecidableEq α] : List (α × β) → α → List (α × β)
  | [], _ => []
  | (k', v') :: t, k => if k = k' then t else (k', v') :: adel t k

/-- Python dict setdefault-then-extend on a list-valued entry. -/
def extendAnchor (m : List (ℕ × List String)) (a : ℕ) (ls : List String) :
    List (ℕ × List String) :=
  match aget m a with
  | some old => aset m a (old ++ ls)
  | none => m ++ [(a, ls)]

/-- Model of SECTION-REGEX: optional space/tab run, a bracketed nonempty
name not containing a closing bracket, optional space/tab run, then
optionally a semicolon comment to the end of the line.  Returns the name
group when the line matches. -/
def sectionMatch? (line : String) : Option String :=
  match line.data.dropWhile isSpaceTab with
  | '[' :: rest =>
    let name := rest.takeWhile (· ≠ ']')
    match rest.dropWhile (· ≠ ']') with
    | ']' :: tailPart =>
      if name.isEmpty then none
      else
        let t2 := tailPart.dropWhile isSpaceTab
        if t2.isEmpty || t2.head? = some ';' then some (String.mk name) else none
    | _ => none
  | _ => none

/-- Model of KEY-VALUE-REGEX.  A line matches exactly when it contains an
equals sign preceded by at least one character.  The result carries the
optional leading-semicolon group, the stripped key (the engine only uses
the stripped form), and the raw value group (everything after the equals
sign with leading spaces and tabs removed). -/
def kvMatch? (line : String) : Option (Bool × String × String) :=
  let cs := line.data
  let pre := cs.takeWhile (· ≠ '=')
  if pre.length = cs.length then none
  else if pre.isEmpty then none
  else
    let value := (cs.drop (pre.length + 1)).dropWhile isSpaceTab
    let a := pre.dropWhile isSpaceTab
    let semi := a.head? = some ';'
    let keyRegion := if semi then a.drop 1 else pre
    some (semi, String.mk (stripL keyRegion), String.mk value)

/-- A line whose first non-whitespace character is a semicolon is passed
through verbatim by the stream driver before any other classification. -/
def isCommentLine (s : String) : Bool :=
  (s.data.dropWhile pyIsWs).head? = some ';'

/-- Model of split-value-comment: split a value into its body and an
optional inline comment, the comment starting at the earliest position
from which the rest of the string is spaces/tabs followed by a
semicolon. -/
def splitValueComment (s : String) : String × String :=
  let cs := s.data
  match cs.findIdx? (· = ';') with
  | none => (s, "")
  | some j =>
    let k := ((cs.take j).reverse.takeWhile isSpaceTab).length
    (String.mk (cs.take (j - k)), String.mk (cs.drop (j - k)))

/-- Model of unwrap-wrapping-quotes: when the value, ignoring outer
whitespace, is wrapped in a pair of double quotes, return the inner text
(between the first and the last quote); otherwise the original value. -/
def unwrapQuotes (s : String) : Bool × String :=
  let a := s.data.dropWhile pyIsWs
  let b := (a.reverse.dropWhile pyIsWs).reverse
  match b with
  | '"' :: t =>
    if t.getLast? = some '"' then (true, String.mk t.dropLast) else (false, s)
  | _ => (false, s)

/-- Model of should-strip-all-quotes-for-key: keys suffixed with dot-key
and the key named glyphs (case-insensitive, after stripping). -/
def shouldStripAllQuotes (k : String) : Bool :=
  let kk := lowerS (pyStrip k)
  kk == "glyphs" || isSuf ".key".data kk.data

/-- The case-insensitive dot-key suffix search used by the key-list
normalization (no stripping here, matching the source). -/
def endsKeyCi (k : String) : Bool :=
  isSuf ".key".data (lowerL k.data)

/-- Remove every double-quote character from a value. -/
def removeQuotes (s : String) : String :=
  String.mk (s.data.filter (· ≠ '"'))

/-- Model of normalize-key-value-if-needed, for a key already known to end
in dot-key: split on ampersands, strip parts, drop empty parts, rejoin
with comma-space; when no parts remain return the stripped value. -/
def keyListJoin (v : String) : String :=
  let parts := ((splitOnC '&' v.data).map stripL).filter (!·.isEmpty)
  if parts.isEmpty then pyStrip v else String.mk (joinL (", ".data) parts)

/-- The keys-to-delete table, as a section/key predicate (all patterns in
the source are anchored case-insensitive literals). -/
def deleteMatch (sec key : String) : Bool :=
  let k := lowerS key
  if sec == "languages" then k == "languages"
  else if sec == "vs screen" then k == "p2.accept.key" || k == "p2.skip.key"
  else if sec == "victory screen" then k == "winquote.time"
  else if sec == "attract mode" then k == "credits.key" || k == "options.key"
  else if sec == "option info" then k == "menu.uselocalcoord" || k == "keymenu.itemname.playerno"
  else if sec == "replay info" then k == "menu.uselocalcoord"
  else if sec == "pause menu" then k == "menu.uselocalcoord"
  else if sec == "training pause menu" then k == "menu.uselocalcoord"
  else false

/-- Value rewrite keeping the second component of a two-component comma
pair (the anchored pair-to-second regex replacement). -/
def subSecondOfPair (v : String) : String :=
  match splitOnC ',' v.data with
  | [_, b] => String.mk b
  | _ => v

/-- Is this the s or i conversion character? -/
def isSI : Option Char → Bool
  | some 's' => true
  | some 'i' => true
  | _ => false

/-- One attempted match of the percent, optional zero, digit-run, s-or-i
pattern starting right after a percent sign; returns the digit group and
the remaining input on success. -/
def pctPad? (rest : List Char) : Option (List Char × List Char) :=
  match rest with
  | '0' :: r2 =>
    let ds := r2.takeWhile Char.isDigit
    if !ds.isEmpty && isSI (r2.drop ds.length).head? then
      some (ds, (r2.drop ds.length).tail)
    else
      let ds2 := rest.takeWhile Char.isDigit
      if !ds2.isEmpty && isSI (rest.drop ds2.length).head? then
        some (ds2, (rest.drop ds2.length).tail)
      else none
  | _ =>
    let ds := rest.takeWhile Char.isDigit
    if !ds.isEmpty && isSI (rest.drop ds.length).head? then
      some (ds, (rest.drop ds.length).tail)
    else none

/-- Fuelled scanner for the global substitution of percent-pad-s-or-i
with percent-zero-digits-d; the fuel is the input length, which always
suffices since each step consumes at least one character. -/
def subPctPadGo : ℕ → List Char → List Char
  | 0, l => l
  | _ + 1, [] => []
  | fuel + 1, '%' :: rest =>
    match pctPad? rest with
    | some (ds, tl) => '%' :: '0' :: (ds ++ 'd' :: subPctPadGo fuel tl)
    | none => '%' :: subPctPadGo fuel rest
  | fuel + 1, c :: rest => c :: subPctPadGo fuel rest

/-- Global substitution: percent, optional zero, digits, s-or-i becomes
percent, zero, digits, d. -/
def subPctPad (s : String) : String :=
  String.mk (subPctPadGo s.data.length s.data)

/-- Global substitution: percent followed by s-or-i becomes percent-d. -/
def subPctSIGo : List Char → List Char
  | [] => []
  | '%' :: c :: rest =>
    if c = 's' || c = 'i' then '%' :: 'd' :: subPctSIGo rest
    else '%' :: subPctSIGo (c :: rest)
  | c :: rest => c :: subPctSIGo rest

/-- String wrapper for the percent-s-or-i substitution. -/
def subPctSI (s : String) : String :=
  String.mk (subPctSIGo s.data)

/-- Global substitution: percent-s becomes percent-d. -/
def subPctSGo : List Char → List Char
  | [] => []
  | '%' :: 's' :: rest => '%' :: 'd' :: subPctSGo rest
  | c :: rest => c :: subPctSGo rest

/-- String wrapper for the percent-s substitution. -/
def subPctS (s : String) : String :=
  String.mk (subPctSGo s.data)

/-- One value-modification rule application: when the key predicate holds,
rewrite the accumulated value and record whether it changed. -/
def vmStep (pred : Bool) (sub : String → String) (acc : String × Bool) : String × Bool :=
  if pred then
    let nv := sub acc.1
    (nv, acc.2 || nv != acc.1)
  else acc

/-- Key predicate of the item-rank optional-dot digits dot-text rule. -/
def rankKey (k : String) : Bool :=
  isPre "item.rank".data k.data && isSuf ".text".data k.data &&
    (let tl := k.data.drop 9
     let mid := tl.take (tl.length - 5)
     match mid with
     | [] => true
     | '.' :: t => t.all Char.isDigit
     | l => l.all Char.isDigit)

/-- Key predicate of the item-data (not time) text rule. -/
def dataTextKey (k : String) : Bool :=
  isPre "item.data.".data k.data &&
    (let rest := k.data.drop 10
     !isPre "time.".data rest && isSuf "text".data rest)

/-- Key predicate of the item-rank-text-number rule. -/
def rankTextNumKey (k : String) : Bool :=
  isPre "item.rank.text.".data k.data && allDig (k.data.drop 15)

/-- The value-modifications table, applied in registration order; returns
the rewritten value together with a changed flag. -/
def applyValueMods (sec key v : String) : String × Bool :=
  let k := lowerS key
  if sec == "victory screen" then
    vmStep (k == "winquote.spacing") subSecondOfPair (v, false)
  else if sec == "dialogue info" then
    vmStep (k == "p1.text.spacing" || k == "p2.text.spacing") subSecondOfPair (v, false)
  else if sec == "hiscore info" then
    (v, false)
      |> vmStep (k == "item.name.text") (fun _ => "%s")
      |> vmStep (rankKey k) subPctPad
      |> vmStep (rankKey k) subPctSI
      |> vmStep (dataTextKey k) subPctPad
      |> vmStep (dataTextKey k) subPctSI
      |> vmStep (k == "item.data.text.win") subPctS
      |> vmStep (k == "item.rank.text.default") subPctS
      |> vmStep (rankTextNumKey k) subPctS
  else if sec == "continue screen" then
    (v, false)
      |> vmStep (k == "credits.text") subPctPad
      |> vmStep (k == "credits.text") subPctSI
  else if sec == "attract mode" then
    (v, false)
      |> vmStep (k == "credits.text") subPctPad
      |> vmStep (k == "credits.text") subPctSI
  else (v, false)

/-- Alternation suffix list of the menu-background rename rules. -/
def altsBg : List String :=
  ["anim", "spr", "offset", "facing", "scale", "xshear", "angle", "layerno", "window", "localcoord"]

/-- Alternation suffix list of the footer / keymenu-item rename rules. -/
def altsFooter : List String :=
  ["font", "offset", "scale", "xshear", "angle", "text", "layerno", "window", "localcoord"]

/-- Alternation suffix list of the stage-active rename rule. -/
def altsStage : List String :=
  ["offset", "scale", "xshear", "angle", "text", "layerno", "window", "localcoord"]

/-- Alternation suffix list of the icon rename rule. -/
def altsIcon : List String :=
  ["offset", "facing", "scale", "xshear", "angle", "layerno", "window", "localcoord"]

/-- Split a character list at its last dot. -/
def lastDotSplit (l : List Char) : Option (List Char × List Char) :=
  let parts := splitOnC '.' l
  if parts.length ≤ 1 then none
  else some (joinL ['.'] parts.dropLast, parts.getLastD [])

/-- A two-group rename rule of shape literal, greedy middle group, dot,
suffix alternation: matches when the key starts with the literal
(case-insensitively) and its last dot-separated segment is one of the
alternatives; the rewritten key keeps the original casing of both
groups. -/
def bgRule (preLow outLit : String) (alts : List String) (key : String) :
    Option (List String) :=
  if isPre preLow.data (lowerL key.data) then
    let rest := key.data.drop preLow.length
    match lastDotSplit rest with
    | some (mid, sfx) =>
      if !mid.isEmpty && alts.contains (lowerS (String.mk sfx)) then
        some [outLit ++ String.mk mid ++ "." ++ String.mk sfx]
      else none
    | none => none
  else none

/-- A one-group rename rule of shape literal then suffix alternation:
the whole remainder after the literal must be one of the alternatives. -/
def lastSegRule (preLow outLit : String) (alts : List String) (key : String) :
    Option (List String) :=
  if isPre preLow.data (lowerL key.data) then
    let rest := key.data.drop preLow.length
    if !rest.isEmpty && alts.contains (lowerS (String.mk rest)) then
      some [outLit ++ String.mk rest]
    else none
  else none

/-- An exact case-insensitive key rename producing fixed output keys. -/
def exactR (lit : String) (outs : List String) (key : String) : Option (List String) :=
  if lowerS key == lit then some outs else none

/-- A rule of shape literal then a greedy nonempty remainder group. -/
def preRestRule (preLow outLit : String) (key : String) : Option (List String) :=
  if isPre preLow.data (lowerL key.data) && preLow.length < key.length then
    some [outLit ++ String.mk (key.data.drop preLow.length)]
  else none

/-- A rule of shape p, digit one-or-two, then a fixed dotted tail; the
output keys are built from the captured digit. -/
def pDigit2Rule (tailLow : String) (mk : String → List String) (key : String) :
    Option (List String) :=
  match lowerL key.data with
  | 'p' :: d :: rest =>
    if (d = '1' || d = '2') && rest = ('.' :: tailLow.data) then
      some (mk (String.mk [d]))
    else none
  | _ => none

/-- The cursor-sound rename of the title section: cursor dot, a group not
starting with the done segment, dot snd. -/
def cursorSndRule (key : String) : Option (List String) :=
  let low := lowerL key.data
  if isPre "cursor.".data low && !isPre "done.".data (low.drop 7) &&
      isSuf ".snd".data low && 11 < key.length then
    some ["cursor.done." ++ String.mk ((key.data.drop 7).take (key.length - 11)) ++ ".snd"]
  else none

/-- The icon rename of the vs-screen section (players one to eight),
producing both the base and the done variant keys. -/
def iconRule (key : String) : Option (List String) :=
  match lowerL key.data with
  | 'p' :: d :: rest =>
    if "12345678".data.contains d && isPre ".icon.".data rest then
      let sfx := key.data.drop 8
      if !sfx.isEmpty && altsIcon.contains (lowerS (String.mk sfx)) then
        some ["p" ++ String.mk [d] ++ ".icon." ++ String.mk sfx,
              "p" ++ String.mk [d] ++ ".icon.done." ++ String.mk sfx]
      else none
    else none
  | _ => none

/-- The keymenu player-position rename of the option section. -/
def keymenuPosRule (key : String) : Option (List String) :=
  let k := lowerS key
  if k == "keymenu.p1.pos" then some ["keymenu.p1.menuoffset"]
  else if k == "keymenu.p2.pos" then some ["keymenu.p2.menuoffset"]
  else none

/-- The keymenu-item player rename of the option section. -/
def keymenuItemRule (key : String) : Option (List String) :=
  let low := lowerL key.data
  match low with
  | 'k' :: 'e' :: 'y' :: 'm' :: 'e' :: 'n' :: 'u' :: '.' :: 'i' :: 't' :: 'e' :: 'm' :: '.' :: 'p' :: d :: '.' :: _ =>
    if d = '1' || d = '2' then
      let sfx := key.data.drop 16
      if !sfx.isEmpty && altsFooter.contains (lowerS (String.mk sfx)) then
        some ["keymenu.p" ++ String.mk [d] ++ ".playerno." ++ String.mk sfx]
      else none
    else none
  | _ => none

/-- The per-section ordered key-transformation tables; the first matching
rule wins.  Returns the replacement keys. -/
def secRules (sec key : String) : Option (List String) :=
  if sec == "music" then
    preRestRule "continue.end." "continueend." key <|>
    preRestRule "results.lose." "resultslose." key
  else if sec == "title info" then
    bgRule "menu.bg.active." "menu.item.active.bg." altsBg key <|>
    bgRule "menu.bg." "menu.item.bg." altsBg key <|>
    cursorSndRule key <|>
    exactR "menu.accept.key" ["menu.done.key"] key <|>
    lastSegRule "footer1." "footer.title." altsFooter key <|>
    lastSegRule "footer2." "footer.info." altsFooter key <|>
    lastSegRule "footer3." "footer.version." altsFooter key
  else if sec == "select info" then
    pDigit2Rule "teammenu.accept.key" (fun d => ["p" ++ d ++ ".teammenu.done.key"]) key <|>
    pDigit2Rule "palmenu.accept.key" (fun d => ["p" ++ d ++ ".palmenu.done.key"]) key <|>
    pDigit2Rule "palmenu.random.applypal" (fun _ => ["palmenu.random.applypal"]) key <|>
    exactR "stage.active.font" ["stage.font", "stage.active.font"] key <|>
    lastSegRule "stage.active." "stage." altsStage key <|>
    pDigit2Rule "face.slide.speed" (fun d => ["p" ++ d ++ ".face.velocity"]) key <|>
    pDigit2Rule "face2.slide.speed" (fun d => ["p" ++ d ++ ".face2.velocity"]) key <|>
    pDigit2Rule "face.slide.dist" (fun d => ["p" ++ d ++ ".face.maxdist"]) key <|>
    pDigit2Rule "face2.slide.dist" (fun d => ["p" ++ d ++ ".face2.maxdist"]) key
  else if sec == "vs screen" then
    exactR "p1.accept.key" ["done.key"] key <|>
    exactR "p1.skip.key" ["skip.key"] key <|>
    iconRule key <|>
    pDigit2Rule "slide.speed" (fun d => ["p" ++ d ++ ".velocity"]) key <|>
    pDigit2Rule "face2.slide.speed" (fun d => ["p" ++ d ++ ".face2.velocity"]) key <|>
    pDigit2Rule "slide.dist" (fun d => ["p" ++ d ++ ".maxdist"]) key <|>
    pDigit2Rule "face2.slide.dist" (fun d => ["p" ++ d ++ ".face2.maxdist"]) key
  else if sec == "victory screen" then
    exactR "winquote.spacing" ["winquote.textspacing"] key <|>
    exactR "winquote.delay" ["winquote.textdelay"] key <|>
    pDigit2Rule "slide.speed" (fun d => ["p" ++ d ++ ".velocity"]) key <|>
    pDigit2Rule "face2.slide.speed" (fun d => ["p" ++ d ++ ".face2.velocity"]) key <|>
    pDigit2Rule "slide.dist" (fun d => ["p" ++ d ++ ".maxdist"]) key <|>
    pDigit2Rule "face2.slide.dist" (fun d => ["p" ++ d ++ ".face2.maxdist"]) key
  else if sec == "option info" then
    exactR "menu.itemname.menugame.stunbar" ["menu.itemname.menugame.dizzy"] key <|>
    exactR "menu.itemname.menugame.guardbar" ["menu.itemname.menugame.guardbreak"] key <|>
    exactR "menu.itemname.menugame.redlifebar" ["menu.itemname.menugame.redlife"] key <|>
    exactR "menu.itemname.menuvideo.vretrace" ["menu.itemname.menuvideo.vsync"] key <|>
    bgRule "menu.bg.active." "menu.item.active.bg." altsBg key <|>
    bgRule "menu.bg." "menu.item.bg." altsBg key <|>
    bgRule "keymenu.bg.active." "keymenu.item.active.bg." altsBg key <|>
    bgRule "keymenu.bg." "keymenu.item.bg." altsBg key <|>
    keymenuPosRule key <|>
    keymenuItemRule key
  else if sec == "replay info" then
    bgRule "menu.bg.active." "menu.item.active.bg." altsBg key <|>
    bgRule "menu.bg." "menu.item.bg." altsBg key
  else if sec == "pause menu" then
    bgRule "menu.bg.active." "menu.item.active.bg." altsBg key <|>
    bgRule "menu.bg." "menu.item.bg." altsBg key
  else if sec == "training pause menu" then
    bgRule "menu.bg.active." "menu.item.active.bg." altsBg key <|>
    bgRule "menu.bg." "menu.item.bg." altsBg key <|>
    lastSegRule "menu.valuename.dummycontrol." "menu.valuename.dummycontrol_"
      ["cooperative", "ai", "manual"] key <|>
    lastSegRule "menu.valuename.ailevel." "menu.valuename.ailevel_"
      ["1", "2", "3", "4", "5", "6", "7", "8"] key <|>
    lastSegRule "menu.valuename.guardmode." "menu.valuename.guardmode_"
      ["none", "auto"] key <|>
    lastSegRule "menu.valuename.dummymode." "menu.valuename.dummymode_"
      ["stand", "crouch", "jump", "wjump"] key <|>
    lastSegRule "menu.valuename.distance." "menu.valuename.distance_"
      ["any", "close", "medium", "far"] key <|>
    lastSegRule "menu.valuename.buttonjam." "menu.valuename.buttonjam_"
      ["none", "a", "b", "c", "x", "y", "z", "s", "d", "w"] key
  else if sec == "attract mode" then
    bgRule "menu.bg.active." "menu.item.active.bg." altsBg key <|>
    bgRule "menu.bg." "menu.item.bg." altsBg key <|>
    exactR "menu.accept.key" ["menu.done.key"] key <|>
    exactR "options.key" ["options.keycode"] key
  else if sec == "challenger info" then
    exactR "text" ["text.text"] key
  else if sec == "continue screen" then
    exactR "accept.key" ["done.key"] key
  else if sec == "hiscore info" then
    preRestRule "item.data." "item.result." key <|>
    preRestRule "title.data." "title.result." key <|>
    exactR "accept.key" ["done.key"] key
  else none

/-- The select-section cell index shift: one-based row and column become
zero-based and are joined with a hyphen. -/
def cellRule (key : String) : Option String :=
  match splitOnC '.' (lowerL key.data) with
  | [c, r, co, sfx] =>
    if c = "cell".data && allDig r && allDig co &&
        (sfx = "offset".data || sfx = "facing".data || sfx = "skip".data) then
      some ("cell." ++ intStr ((digitsNat r : ℤ) - 1) ++ "-" ++
        intStr ((digitsNat co : ℤ) - 1) ++ "." ++ String.mk sfx)
    else none
  | _ => none

/-- The select-section cursor index shift, analogous to the cell rule. -/
def cursorNumRule (key : String) : Option String :=
  match splitOnC '.' (lowerL key.data) with
  | [p, cur, st, r, co, sfx] =>
    if (p = "p1".data || p = "p2".data) && cur = "cursor".data &&
        (st = "active".data || st = "done".data) && allDig r && allDig co &&
        (sfx = "anim".data || sfx = "spr".data || sfx = "offset".data ||
         sfx = "facing".data || sfx = "scale".data) then
      some (String.mk p ++ ".cursor." ++ String.mk st ++ "." ++
        intStr ((digitsNat r : ℤ) - 1) ++ "-" ++ intStr ((digitsNat co : ℤ) - 1) ++
        "." ++ String.mk sfx)
    else none
  | _ => none

/-- Model of apply-key-transformations: the select-section index-shift
rules run ahead of the generic per-section table; each replacement key
produces one output line sharing the value and comment marker. -/
def applyKeyTransforms (sec key v c : String) : Option (List String) :=
  if sec == "select info" then
    match cellRule key with
    | some nk => some [c ++ nk ++ " = " ++ v]
    | none =>
      match cursorNumRule key with
      | some nk => some [c ++ nk ++ " = " ++ v]
      | none => (secRules sec key).map (List.map (fun nk => c ++ nk ++ " = " ++ v))
  else (secRules sec key).map (List.map (fun nk => c ++ nk ++ " = " ++ v))

/-- The fixed member-to-player table: player one's members map to players
one, three, five, seven; player two's to two, four, six, eight. -/
def pmMap (p m : ℕ) : ℕ :=
  if p = 1 then [1, 3, 5, 7].getD (m - 1) 0 else [2, 4, 6, 8].getD (m - 1) 0

/-- Leftmost occurrence of a dot-member-digit segment in a lowered
character list, returning its index and the member digit. -/
def findMember : List Char → Option (ℕ × Char)
  | [] => none
  | c :: t =>
    if c = '.' && isPre "member".data t &&
        (match t.drop 6 with
         | d :: _ => d = '1' || d = '2' || d = '3' || d = '4'
         | [] => false) then
      some (0, (t.drop 6).headD '1')
    else
      match findMember t with
      | some (i, d) => some (i + 1, d)
      | none => none

/-- Model of remap-member-key: drop the first dot-member segment of a
p-one-or-two key and remap the player number through the member table;
the remainder keeps its original casing. -/
def remapMemberKey (key : String) : String × Bool :=
  match lowerL key.data with
  | 'p' :: d :: '.' :: _ =>
    if d = '1' || d = '2' then
      match findMember (lowerL (key.data.drop 2)) with
      | some (i, md) =>
        let base := if d = '1' then 1 else 2
        let np := pmMap base (md.toNat - 48)
        let restOrig := key.data.drop 2
        (String.mk (key.data.take 1) ++ natStr np ++
          String.mk (restOrig.take i ++ restOrig.drop (i + 8)), true)
      | none => (key, false)
    else (key, false)
  | _ => (key, false)

/-- Word character of the regex boundary test (ASCII model). -/
def isWordChar (c : Char) : Bool :=
  c.isAlpha || c.isDigit || c = '_'

/-- Model of remap-boxcursor-alpharange: a key ending in the boxcursor
alpharange suffix, with a word boundary before the boxcursor segment,
is renamed to the pulse key. -/
def remapBoxcursor (key : String) : String × Bool :=
  let low := lowerL key.data
  let suf := "boxcursor.alpharange".data
  if isSuf suf low then
    let pre := low.take (key.length - suf.length)
    if pre.isEmpty || !isWordChar (pre.getLastD ' ') then
      (String.mk (key.data.take (key.length - ".alpharange".length)) ++ ".pulse", true)
    else (key, false)
  else (key, false)

/-- Match of the itemname-empty structural rewrite: the key ends in the
empty word and the part before it contains a dot-itemname-dot segment
with at least one character before it; returns that leading part. -/
def itemnameEmptyPre (key : String) : Option String :=
  let low := lowerL key.data
  if isSuf "empty".data low then
    let pre := key.data.take (key.length - 5)
    match lowerL pre with
    | [] => none
    | _ :: t => if containsSub ".itemname.".data t then some (String.mk pre) else none
  else none

/-- The sections in which the itemname-empty rewrite applies. -/
def menuSections : List String :=
  ["title info", "select info", "option info", "attract mode", "pause menu",
   "training pause menu", "replay info"]

/-- The roster sections supporting per-member aggregation. -/
def rosterSections : List String :=
  ["select info", "vs screen", "victory screen"]

/-- The offset / scale / velocity kind of an aggregation group. -/
inductive Kind where
  | plain
  | face
  | face2
deriving DecidableEq, Repr

/-- Aggregation slots are keyed by section, base player and kind. -/
abbrev SlotKey := String × ℕ × Kind

/-- An offset or scale aggregation slot: optional base value, member
override map and the slot's anchor. -/
structure PairSlot where
  base : Option (ℚ × ℚ)
  members : List (ℕ × (ℚ × ℚ))
  anchor : Option ℕ
deriving DecidableEq, Repr

/-- A velocity aggregation slot: last recorded speed pair and anchor. -/
structure VelSlot where
  v : ℚ × ℚ
  anchor : Option ℕ
deriving DecidableEq, Repr

/-- The module-level aggregation state: the four parameter dictionaries
and the global anchor counter. -/
structure AggSt where
  offs : List (SlotKey × PairSlot)
  scales : List (SlotKey × PairSlot)
  vels : List (SlotKey × VelSlot)
  facings : List (SlotKey × ℚ)
  counter : ℕ
deriving DecidableEq, Repr

/-- The empty aggregation state. -/
def AggSt.empty : AggSt :=
  ⟨[], [], [], [], 0⟩

/-- A buffered item is either a resolved line or an anchor token. -/
inductive BufItem where
  | line (s : String)
  | anchor (id : ℕ)
deriving DecidableEq, Repr

/-- A p-followed-by-one-or-two segment with the parsed player. -/
def p12? (seg : List Char) : Option ℕ :=
  if seg = ['p', '1'] then some 1 else if seg = ['p', '2'] then some 2 else none

/-- A p-followed-by-digits segment with the parsed player number. -/
def pNum? (seg : List Char) : Option ℕ :=
  match seg with
  | 'p' :: ds => if allDig ds then some (digitsNat ds) else none
  | _ => none

/-- A member-digit segment with the parsed member index. -/
def memberIdx? (seg : List Char) : Option ℕ :=
  match seg with
  | ['m', 'e', 'm', 'b', 'e', 'r', d] =>
    if d = '1' || d = '2' || d = '3' || d = '4' then some (d.toNat - 48) else none
  | _ => none

/-- Classify an offset-like or scale-like key (parameterised on the last
segment) into base player, optional member index and kind, mirroring the
six regexes of the record functions. -/
def pairKeyClass (lastSeg : List Char) (key : String) : Option (ℕ × Option ℕ × Kind) :=
  match splitOnC '.' (lowerL key.data) with
  | [p, last] =>
    if last = lastSeg then (p12? p).map (fun n => (n, none, Kind.plain)) else none
  | [p, mid, last] =>
    if last = lastSeg then
      match p12? p with
      | none => none
      | some n =>
        if mid = "face".data then some (n, none, Kind.face)
        else if mid = "face2".data then some (n, none, Kind.face2)
        else (memberIdx? mid).map (fun i => (n, some i, Kind.plain))
    else none
  | [p, m, mid, last] =>
    if last = lastSeg then
      match p12? p, memberIdx? m with
      | some n, some i =>
        if mid = "face".data then some (n, some i, Kind.face)
        else if mid = "face2".data then some (n, some i, Kind.face2)
        else none
      | _, _ => none
    else none
  | _ => none

/-- Classify a slide-speed key per section, mirroring the velocity record
regexes (any player number is accepted). -/
def velKeyClass (sec : String) (key : String) : Option (ℕ × Kind) :=
  let parts := splitOnC '.' (lowerL key.data)
  if sec == "select info" then
    match parts with
    | [p, f, s1, s2] =>
      if s1 = "slide".data && s2 = "speed".data then
        match pNum? p with
        | some n =>
          if f = "face".data then some (n, Kind.face)
          else if f = "face2".data then some (n, Kind.face2)
          else none
        | none => none
      else none
    | _ => none
  else
    match parts with
    | [p, s1, s2] =>
      if s1 = "slide".data && s2 = "speed".data then
        (pNum? p).map (fun n => (n, Kind.plain))
      else none
    | [p, f, s1, s2] =>
      if f = "face2".data && s1 = "slide".data && s2 = "speed".data then
        (pNum? p).map (fun n => (n, Kind.face2))
      else none
    | _ => none

/-- Classify a facing key, mirroring the facing record regexes. -/
def facingKeyClass (key : String) : Option (ℕ × Kind) :=
  match splitOnC '.' (lowerL key.data) with
  | [p, f2] =>
    if f2 = "facing".data then (pNum? p).map (fun n => (n, Kind.plain)) else none
  | [p, f, f2] =>
    if f2 = "facing".data then
      match pNum? p with
      | some n =>
        if f = "face".data then some (n, Kind.face)
        else if f = "face2".data then some (n, Kind.face2)
        else none
      | none => none
    else none
  | _ => none

/-- Model of record-facing-param: in roster sections, store the parsed
first component of the facing value (1 on empty or parse failure). -/
def recordFacing (st : AggSt) (sect key v : String) : AggSt :=
  let sec := lowerS sect
  if !rosterSections.contains sec then st
  else
    match facingKeyClass key with
    | none => st
    | some (p, k) =>
      let first := pyStrip (String.mk ((splitOnC ',' v.data).headD []))
      let f : ℚ := if first == "" then 1 else (pyFloat? first).getD 1
      { st with facings := aset st.facings (sec, p, k) f }

/-- Model of record-member-offset-param: returns the new state, whether
the key was captured, and a freshly allocated anchor when this was the
slot's first contributing line. -/
def recordOffset (st : AggSt) (sect key v : String) : AggSt × Bool × Option ℕ :=
  let sec := lowerS sect
  if !rosterSections.contains sec then (st, false, none)
  else
    match pairKeyClass "offset".data key with
    | none => (st, false, none)
    | some (p, mi, k) =>
      let xy := parsePairD 0 v
      let slot := (aget st.offs (sec, p, k)).getD ⟨none, [], none⟩
      let slot :=
        match mi with
        | none => { slot with base := some xy }
        | some i => { slot with members := aset slot.members i xy }
      match slot.anchor with
      | some _ => ({ st with offs := aset st.offs (sec, p, k) slot }, true, none)
      | none =>
        let a := st.counter + 1
        let slot2 := { slot with anchor := some a }
        ({ st with offs := aset st.offs (sec, p, k) slot2, counter := a }, true, some a)

/-- Model of record-member-scale-param, identical in shape to the offset
recorder but with the scale identity default. -/
def recordScale (st : AggSt) (sect key v : String) : AggSt × Bool × Option ℕ :=
  let sec := lowerS sect
  if !rosterSections.contains sec then (st, false, none)
  else
    match pairKeyClass "scale".data key with
    | none => (st, false, none)
    | some (p, mi, k) =>
      let xy := parsePairD 1 v
      let slot := (aget st.scales (sec, p, k)).getD ⟨none, [], none⟩
      let slot :=
        match mi with
        | none => { slot with base := some xy }
        | some i => { slot with members := aset slot.members i xy }
      match slot.anchor with
      | some _ => ({ st with scales := aset st.scales (sec, p, k) slot }, true, none)
      | none =>
        let a := st.counter + 1
        let slot2 := { slot with anchor := some a }
        ({ st with scales := aset st.scales (sec, p, k) slot2, counter := a }, true, some a)

/-- Model of record-velocity-param: store the parsed speed pair
(overwriting any earlier one) and allocate an anchor on first touch. -/
def recordVelocity (st : AggSt) (sect key v : String) : AggSt × Bool × Option ℕ :=
  let sec := lowerS sect
  if !rosterSections.contains sec then (st, false, none)
  else
    match velKeyClass sec key with
    | none => (st, false, none)
    | some (p, k) =>
      let xy := parsePairD 0 v
      match aget st.vels (sec, p, k) with
      | some slot =>
        match slot.anchor with
        | some _ => ({ st with vels := aset st.vels (sec, p, k) { slot with v := xy } }, true, none)
        | none =>
          let a := st.counter + 1
          ({ st with vels := aset st.vels (sec, p, k) ⟨xy, some a⟩, counter := a }, true, some a)
      | none =>
        let a := st.counter + 1
        ({ st with vels := st.vels ++ [((sec, p, k), ⟨xy, some a⟩)], counter := a }, true, some a)

/-- The key suffix a kind contributes to an aggregated output key. -/
def kindSuffix : Kind → String
  | Kind.plain => ""
  | Kind.face => ".face"
  | Kind.face2 => ".face2"

/-- The sorted member indices needing final lines for a slot: every
member with an override, plus member one when a base value or an
explicit member-one override exists.  The record regexes only admit
indices one to four, so iterating the range in order matches the
sorted-set iteration of the source. -/
def memberIdxsOf (data : PairSlot) : List ℕ :=
  (List.range 4).filterMap fun i =>
    let m := i + 1
    if (aget data.members m).isSome || (m == 1 && data.base.isSome) then some m else none

/-- The output lines of one member index of an offset slot: sum of base
and override (zero defaults), with a done variant in the sections that
have a done state. -/
def offLinesFor (sec : String) (p : ℕ) (k : Kind) (data : PairSlot) (m : ℕ) : List String :=
  let tp := pmMap p m
  let b := data.base.getD (0, 0)
  let mo := (aget data.members m).getD (0, 0)
  let off := fmtPair (b.1 + mo.1) (b.2 + mo.2)
  let baseKey := "p" ++ natStr tp ++ kindSuffix k
  if sec == "select info" || sec == "vs screen" then
    [baseKey ++ ".offset = " ++ off, baseKey ++ ".done.offset = " ++ off]
  else
    [baseKey ++ ".offset = " ++ off]

/-- Model of flush-member-offsets-for-section: walk the slot dictionary
in insertion order, emit the aggregated lines of the slots of the closing
section (attached to their anchor when one exists, appended otherwise)
and delete those slots. -/
def flushOffsets (st : AggSt) (sect : String) :
    List (ℕ × List String) × List String × AggSt :=
  if sect == "" then ([], [], st)
  else
    let sec := lowerS sect
    if !rosterSections.contains sec then ([], [], st)
    else
      let r := st.offs.foldl
        (fun (acc : List (ℕ × List String) × List String × List (SlotKey × PairSlot)) e =>
          match e with
          | ((s, p, k), data) =>
            if s != sec then (acc.1, acc.2.1, acc.2.2 ++ [e])
            else
              let idxs := memberIdxsOf data
              if idxs.isEmpty then acc
              else
                let lines := idxs.flatMap (offLinesFor sec p k data)
                match data.anchor with
                | some a => (extendAnchor acc.1 a lines, acc.2.1, acc.2.2)
                | none => (acc.1, acc.2.1 ++ lines, acc.2.2))
        ([], [], [])
      (r.1, r.2.1, { st with offs := r.2.2 })

/-- The output lines of one member index of a scale slot: product of base
and override (unit defaults). -/
def scaleLinesFor (sec : String) (p : ℕ) (k : Kind) (data : PairSlot) (m : ℕ) : List String :=
  let tp := pmMap p m
  let b := data.base.getD (1, 1)
  let mo := (aget data.members m).getD (1, 1)
  let sc := fmtPair (b.1 * mo.1) (b.2 * mo.2)
  let baseKey := "p" ++ natStr tp ++ kindSuffix k
  if sec == "select info" || sec == "vs screen" then
    [baseKey ++ ".scale = " ++ sc, baseKey ++ ".done.scale = " ++ sc]
  else
    [baseKey ++ ".scale = " ++ sc]

/-- Model of flush-member-scales-for-section. -/
def flushScales (st : AggSt) (sect : String) :
    List (ℕ × List String) × List String × AggSt :=
  if sect == "" then ([], [], st)
  else
    let sec := lowerS sect
    if !rosterSections.contains sec then ([], [], st)
    else
      let r := st.scales.foldl
        (fun (acc : List (ℕ × List String) × List String × List (SlotKey × PairSlot)) e =>
          match e with
          | ((s, p, k), data) =>
            if s != sec then (acc.1, acc.2.1, acc.2.2 ++ [e])
            else
              let idxs := memberIdxsOf data
              if idxs.isEmpty then acc
              else
                let lines := idxs.flatMap (scaleLinesFor sec p k data)
                match data.anchor with
                | some a => (extendAnchor acc.1 a lines, acc.2.1, acc.2.2)
                | none => (acc.1, acc.2.1 ++ lines, acc.2.2))
        ([], [], [])
      (r.1, r.2.1, { st with scales := r.2.2 })

/-- The output key of an aggregated velocity line, by section and kind. -/
def velKeyName (sec : String) (p : ℕ) (k : Kind) : String :=
  if sec == "select info" then
    match k with
    | Kind.face => "p" ++ natStr p ++ ".face.velocity"
    | Kind.face2 => "p" ++ natStr p ++ ".face2.velocity"
    | Kind.plain => "p" ++ natStr p ++ ".velocity"
  else
    match k with
    | Kind.plain => "p" ++ natStr p ++ ".velocity"
    | Kind.face2 => "p" ++ natStr p ++ ".face2.velocity"
    | Kind.face => "p" ++ natStr p ++ ".face.velocity"

/-- The facing used when flushing a velocity slot: the facing recorded
for the slot's own kind; otherwise the face kind's facing for the plain
kind and the plain kind's facing for the face kinds; otherwise one. -/
def resolveFacing (facings : List (SlotKey × ℚ)) (sec : String) (p : ℕ) (k : Kind) : ℚ :=
  match aget facings (sec, p, k) with
  | some f => f
  | none =>
    match k with
    | Kind.plain => (aget facings (sec, p, Kind.face)).getD 1
    | _ => (aget facings (sec, p, Kind.plain)).getD 1

/-- Model of flush-velocity-for-section: emit one line per recorded slot
of the closing section, multiplying the first speed component by the
resolved facing, then delete those slots and clear the section's facing
records. -/
def flushVelocity (st : AggSt) (sect : String) :
    List (ℕ × List String) × List String × AggSt :=
  if sect == "" then ([], [], st)
  else
    let sec := lowerS sect
    if !rosterSections.contains sec then ([], [], st)
    else
      let r := st.vels.foldl
        (fun (acc : List (ℕ × List String) × List String × List (SlotKey × VelSlot)) e =>
          match e with
          | ((s, p, k), slot) =>
            if s != sec then (acc.1, acc.2.1, acc.2.2 ++ [e])
            else
              let f := resolveFacing st.facings sec p k
              let line := velKeyName sec p k ++ " = " ++ fmtPair (slot.v.1 * f) slot.v.2
              match slot.anchor with
              | some a => (extendAnchor acc.1 a [line], acc.2.1, acc.2.2)
              | none => (acc.1, acc.2.1 ++ [line], acc.2.2))
        ([], [], [])
      (r.1, r.2.1,
        { st with vels := r.2.2, facings := st.facings.filter (fun e => e.1.1 != sec) })

/-- The single-element or empty buffer contribution of a record call. -/
def toItems (a : Option ℕ) : List BufItem :=
  match a with
  | some id => [BufItem.anchor id]
  | none => []

/-- The stages of handle-line that follow the offset and scale capture:
global key remaps, the itemname-empty rewrite, the high-score title
expansion, velocity capture, quote re-wrapping, the per-section key
transformations and the final passthrough. -/
def handleTail (st : AggSt) (sec key nv vfl comment ic : String)
    (wasWrapped stripAll changed : Bool) (rawLine : Option String) :
    AggSt × List BufItem :=
  let r1 := remapMemberKey key
  let key1 := r1.1
  let changed1 := changed || r1.2
  let r2 := remapBoxcursor key1
  let key2 := r2.1
  let nv2 := if r2.2 then "30, 20, 30" else nv
  let changed2 := changed1 || r2.2
  if comment != ";" && menuSections.contains sec &&
      (itemnameEmptyPre key2).isSome && pyStrip vfl == "" then
    (st, [BufItem.line (comment ++ ((itemnameEmptyPre key2).getD "") ++ "spacer = -" ++ ic)])
  else if sec == "hiscore info" && lowerS key2 == "title.text" then
    let q := if wasWrapped && !stripAll then "\"" else ""
    (st, [BufItem.line (comment ++ "title.text.arcade = " ++ q ++ "Ranking Arcade" ++ q),
          BufItem.line (comment ++ "title.text.teamarcade = " ++ q ++ "Ranking Team Arcade" ++ q),
          BufItem.line (comment ++ "title.text.teamcoop = " ++ q ++ "Ranking Team Cooperative" ++ q),
          BufItem.line (comment ++ "title.text.timeattack = " ++ q ++ "Ranking Time Attack" ++ q),
          BufItem.line (comment ++ "title.text.survival = " ++ q ++ "Ranking Survival" ++ q),
          BufItem.line (comment ++ "title.text.survivalcoop = " ++ q ++ "Ranking Survival Cooperative" ++ q)])
  else
    match (if comment != ";" then recordVelocity st sec key2 vfl else (st, false, none)) with
    | (st', true, a) => (st', toItems a)
    | (st', false, _) =>
      let vOut := if !stripAll && wasWrapped then "\"" ++ nv2 ++ "\"" else nv2
      match applyKeyTransforms sec key2 (vOut ++ ic) comment with
      | some ls => (st', ls.map BufItem.line)
      | none =>
        match rawLine with
        | some r =>
          if !changed2 then (st', [BufItem.line r])
          else (st', [BufItem.line (comment ++ key2 ++ " = " ++ vOut ++ ic)])
        | none => (st', [BufItem.line (comment ++ key2 ++ " = " ++ vOut ++ ic)])

/-- Model of handle-line: deletion, inline-comment split, quote
unwrapping, value modifications, quote stripping, key-list
renormalization, aggregation capture, then the tail stages. -/
def handle_line (st : AggSt) (sec key value comment : String) (rawLine : Option String) :
    AggSt × List BufItem :=
  if deleteMatch sec key then (st, [])
  else
    let svc := splitValueComment value
    let vb := svc.1
    let ic := svc.2
    let uw := unwrapQuotes vb
    let wasWrapped := uw.1
    let innerValue := uw.2
    let stripAll := shouldStripAllQuotes key
    let changed0 := stripAll && wasWrapped
    let vm := applyValueMods sec key innerValue
    let nv1 := vm.1
    let changed1 := changed0 || vm.2
    let nv2 := if stripAll then removeQuotes nv1 else nv1
    let changed2 := changed1 || (stripAll && nv2 != nv1)
    let isK := endsKeyCi key
    let nv3 := if isK then keyListJoin nv2 else nv2
    let changed3 := changed2 || (isK && nv3 != nv2)
    if comment != ";" then
      let st1 := recordFacing st sec key nv3
      match recordOffset st1 sec key nv3 with
      | (st2, true, a) => (st2, toItems a)
      | (st2, false, _) =>
        match recordScale st2 sec key nv3 with
        | (st3, true, a) => (st3, toItems a)
        | (st3, false, _) =>
          handleTail st3 sec key nv3 nv3 comment ic wasWrapped stripAll changed3 rawLine
    else
      handleTail st sec key nv3 nv3 comment ic wasWrapped stripAll changed3 rawLine

/-- The append-if-missing table. -/
def appendMissingTable (sec : String) : List (String × String) :=
  if sec == "option info" then
    [("keymenu.pos", "0, 0"),
     ("keymenu.window.margins.y", "0, 0"),
     ("keymenu.window.visibleitems", "0")]
  else []

/-- Synthesize the missing default lines of a section by running each
absent key through handle-line. -/
def collectMissing (agg : AggSt) (sec : String) (seenKeys : List String) :
    AggSt × List BufItem :=
  (appendMissingTable sec).foldl
    (fun acc kv =>
      if seenKeys.contains (lowerS (pyStrip kv.1)) then acc
      else
        let r := handle_line acc.1 sec kv.1 kv.2 "" none
        (r.1, acc.2 ++ r.2))
    (agg, [])

/-- A buffer item belonging to the trailing blank-or-comment tail. -/
def isTailItem : BufItem → Bool
  | BufItem.anchor _ => false
  | BufItem.line s =>
    let t := pyStrip s
    t == "" || t.data.head? = some ';'

/-- Insert the synthesized missing lines right before the trailing run of
blank or comment items. -/
def insertBeforeTail (buf : List BufItem) (items : List BufItem) : List BufItem :=
  let tailLen := (buf.reverse.takeWhile isTailItem).length
  let cut := buf.length - tailLen
  buf.take cut ++ items ++ buf.drop cut

/-- Walk the buffer replacing each anchor by its assigned lines, popping
the entry from the map; anchors with no assigned lines vanish. -/
def resolveGo : List BufItem → List (ℕ × List String) → List String × List (ℕ × List String)
  | [], m => ([], m)
  | BufItem.line s :: rest, m =>
    let r := resolveGo rest m
    (s :: r.1, r.2)
  | BufItem.anchor a :: rest, m =>
    let ls := (aget m a).getD []
    let r := resolveGo rest (adel m a)
    (ls ++ r.1, r.2)

/-- Model of resolve-anchors: resolve the buffer, then append leftover
anchor lines (in map order) and the trailing lines. -/
def resolveAnchors (buf : List BufItem) (amap : List (ℕ × List String))
    (trailing : List String) : List String :=
  let r := resolveGo buf amap
  r.1 ++ r.2.flatMap Prod.snd ++ trailing

/-- Merge a second anchor map into a first with setdefault-extend
semantics, in order. -/
def mergeAnchors (m n : List (ℕ × List String)) : List (ℕ × List String) :=
  n.foldl (fun acc e => extendAnchor acc e.1 e.2) m

/-- The plain lines of a buffer, in order. -/
def bufLines (buf : List BufItem) : List String :=
  buf.filterMap (fun it =>
    match it with
    | BufItem.line s => some s
    | BufItem.anchor _ => none)

/-- Model of finalize-section: append missing defaults before the
trailing tail, flush the three aggregation kinds in order, and resolve
anchors.  A nameless section is returned as is (its buffer can hold no
anchors). -/
def finalizeSection (seen : List (String × List String)) (agg : AggSt)
    (secName : String) (buf : List BufItem) : AggSt × List String :=
  if secName == "" then (agg, bufLines buf)
  else
    let seenKeys := (aget seen secName).getD []
    let cm := collectMissing agg secName seenKeys
    let buf1 := if cm.2.isEmpty then buf else insertBeforeTail buf cm.2
    let f1 := flushOffsets cm.1 secName
    let f2 := flushScales f1.2.2 secName
    let f3 := flushVelocity f2.2.2 secName
    let amap := mergeAnchors (mergeAnchors f1.1 f2.1) f3.1
    (f3.2.2, resolveAnchors buf1 amap (f1.2.1 ++ f2.2.1 ++ f3.2.1))

/-- The section rename table. -/
def renameSection (s : String) : String :=
  if s == "menu info" then "pause menu"
  else if s == "menubgdef" then "pausebgdef"
  else if s == "training info" then "training pause menu"
  else if s == "trainingbgdef" then "trainingpausebgdef"
  else s

/-- Canonical output casing of renamed sections. -/
def canonicalCase (s : String) : Option String :=
  if s == "pause menu" then some "Pause Menu"
  else if s == "pausebgdef" then some "PauseBGdef"
  else if s == "training pause menu" then some "Training Pause Menu"
  else if s == "trainingpausebgdef" then some "TrainingPauseBGdef"
  else none

/-- The stream-driver state of process-ini. -/
structure PState where
  current : String
  infoSeen : Bool
  ikemenWritten : Bool
  seen : List (String × List String)
  buffer : List BufItem
  agg : AggSt
  out : List String
deriving DecidableEq, Repr

/-- Record an active key as seen in its section. -/
def addSeen (seen : List (String × List String)) (sec k : String) :
    List (String × List String) :=
  match aget seen sec with
  | some l => aset seen sec (if l.contains k then l else l ++ [k])
  | none => seen ++ [(sec, [k])]

/-- Rebuild a matched section-header line around the rewritten name,
keeping the text before the first opening bracket and after the last
closing bracket. -/
def headerLineOf (line : String) (outName : String) : String :=
  let lb := (line.data.findIdx? (· = '[')).getD 0
  let rbRev := (line.data.reverse.findIdx? (· = ']')).getD 0
  let rb := line.data.length - 1 - rbRev
  String.mk (line.data.take lb) ++ "[" ++ outName ++ "]" ++
    String.mk (line.data.drop (rb + 1))

/-- One step of the stream driver: comment passthrough, section switch
(finalizing the previous buffer and optionally inserting the version
line), key-value dispatch (with the info-section version forcing), or
verbatim passthrough. -/
def step (rawVersion : Option String) (st : PState) (line : String) : PState :=
  if isCommentLine line then { st with buffer := st.buffer ++ [BufItem.line line] }
  else
    match sectionMatch? line with
    | some name =>
      let fz := finalizeSection st.seen st.agg st.current st.buffer
      let origName := pyStrip name
      let secLower := renameSection (lowerS origName)
      let outName := (canonicalCase secLower).getD origName
      let headerLine := headerLineOf line outName
      let ins := secLower == "info" && rawVersion.isNone && !st.ikemenWritten
      { current := secLower,
        infoSeen := st.infoSeen || secLower == "info",
        ikemenWritten := st.ikemenWritten || ins,
        seen := st.seen,
        buffer := if ins then [BufItem.line "ikemenversion = 1.0"] else [],
        agg := fz.1,
        out := st.out ++ fz.2 ++ [headerLine] }
    | none =>
      match kvMatch? line with
      | some (semi, cleanKey, rawValue) =>
        let cm := if semi then ";" else ""
        let seen' := if !semi then addSeen st.seen st.current (lowerS cleanKey) else st.seen
        if st.current == "info" && !semi && lowerS cleanKey == "ikemenversion" then
          let ic := (splitValueComment rawValue).2
          let r := handle_line st.agg st.current cleanKey ("1.0" ++ ic) cm none
          { st with
            seen := seen'
            ikemenWritten := true
            agg := r.1
            buffer := st.buffer ++ r.2 }
        else
          let r := handle_line st.agg st.current cleanKey rawValue cm (some line)
          { st with seen := seen', agg := r.1, buffer := st.buffer ++ r.2 }
      | none => { st with buffer := st.buffer ++ [BufItem.line line] }

/-- The driver state at the start of a run: when the caller reports that
no info section exists, the seed lines are emitted up front. -/
def initState (hasInfo : Option Bool) : PState :=
  if hasInfo = some false then
    ⟨"", true, true, [], [], AggSt.empty, ["[Info]", "ikemenversion = 1.0", ""]⟩
  else
    ⟨"", false, false, [], [], AggSt.empty, []⟩

/-- Model of process-ini on a list of input lines: fold the driver over
the lines, finalize the last section, and apply the legacy missing-info
fallback. -/
def processIni (hasInfo : Option Bool) (rawVersion : Option String)
    (lines : List String) : List String :=
  let st := lines.foldl (step rawVersion) (initState hasInfo)
  let fz := finalizeSection st.seen st.agg st.current st.buffer
  let out := st.out ++ fz.2
  if hasInfo.isNone && !st.infoSeen then out ++ ["", "[Info]", "ikemenversion = 1.0"]
  else out

/-- Looking up the key just written returns the written value. -/
theorem aget_aset_self {α β : Type} [DecidableEq α] (m : List (α × β)) (k : α) (v : β) :
    aget (aset m k v) k = some v := by
  induction m with
  | nil => simp [aset, aget]
  | cons e t ih =>
    obtain ⟨k', v'⟩ := e
    by_cases h : k = k'
    · simp [aset, aget, h]
    · simp [aset, aget, h, ih]

/-- Deleting a key yields a sublist of the original association list. -/
theorem adel_sublist {α β : Type} [DecidableEq α] (m : List (α × β)) (a : α) :
    List.Sublist (adel m a) m := by
  induction m with
  | nil => simp [adel]
  | cons e t ih =>
    obtain ⟨k', v'⟩ := e
    by_cases h : a = k'
    · simp only [adel, if_pos h]
      exact List.sublist_cons_self _ _
    · simp only [adel, if_neg h]
      exact ih.cons₂ _

/-- Membership is preserved by association-list deletion. -/
theorem mem_adel {α β : Type} [DecidableEq α] {m : List (α × β)} {a : α} {e : α × β}
    (h : e ∈ adel m a) : e ∈ m :=
  (adel_sublist m a).subset h

/-- Lookup of a different key is unaffected by deletion. -/
theorem aget_adel_ne {α β : Type} [DecidableEq α] (m : List (α × β)) {a b : α}
    (h : b ≠ a) : aget (adel m a) b = aget m b := by
  induction m with
  | nil => simp [adel]
  | cons e t ih =>
    obtain ⟨k', v'⟩ := e
    by_cases hk : a = k'
    · subst hk
      simp [adel, aget, h]
    · by_cases hb : b = k'
      · simp [adel, aget, hk, hb]
      · simp [adel, aget, hk, hb, ih]

/-- With duplicate-free keys, every entry surviving a deletion has a key
different from the deleted one. -/
theorem adel_keys_ne {α β : Type} [DecidableEq α] :
    ∀ (m : List (α × β)), (m.map Prod.fst).Nodup →
      ∀ (a : α) (e : α × β), e ∈ adel m a → e.1 ≠ a := by
  intro m
  induction m with
  | nil =>
    intro _ a e h
    simp [adel] at h
  | cons p t ih =>
    intro hnd a e h
    obtain ⟨k', v'⟩ := p
    simp only [List.map_cons, List.nodup_cons] at hnd
    by_cases hk : a = k'
    · subst hk
      simp only [adel, if_pos rfl] at h
      intro he
      exact hnd.1 (he ▸ List.mem_map_of_mem Prod.fst h)
    · simp only [adel, if_neg hk] at h
      rcases List.mem_cons.mp h with h1 | h1
      · subst h1
        exact fun hh => hk hh.symm
      · exact ih hnd.2 a e h1

/-- Pointwise-equal functions give equal flat maps. -/
theorem flatMap_congr_mem {α β : Type} {l : List α} {f g : α → List β}
    (h : ∀ x ∈ l, f x = g x) : l.flatMap f = l.flatMap g := by
  induction l with
  | nil => rfl
  | cons a t ih =>
    simp only [List.flatMap_cons]
    rw [h a (List.mem_cons_self a t), ih (fun x hx => h x (List.mem_cons_of_mem a hx))]

/-- A flat map through a filter map collapses to one flat map. -/
theorem flatMap_filterMap {α β γ : Type} (f : α → Option β) (g : β → List γ)
    (l : List α) :
    (l.filterMap f).flatMap g = l.flatMap (fun x => (f x).elim [] g) := by
  induction l with
  | nil => rfl
  | cons a t ih =>
    cases h : f a <;> simp [List.filterMap_cons, h, ih, Option.elim]

/-- The anchor identifiers occurring in a buffer, in order. -/
def bufAnchors (buf : List BufItem) : List ℕ :=
  buf.filterMap fun it =>
    match it with
    | BufItem.anchor a => some a
    | BufItem.line _ => none

/-- The lines an anchor map assigns to one buffer item. -/
def resolveSpecItem (amap : List (ℕ × List String)) : BufItem → List String
  | BufItem.line s => [s]
  | BufItem.anchor a => (aget amap a).getD []

/-- Anchor resolution characterised: when the buffer's anchors are
duplicate-free and every map entry targets some buffer anchor, the walk
replaces each anchor in place by its assigned lines exactly once (an
anchor with no entry vanishing), and no leftover entries remain. -/
theorem resolveGo_spec :
    ∀ (buf : List BufItem) (amap : List (ℕ × List String)),
      (bufAnchors buf).Nodup → (amap.map Prod.fst).Nodup →
      (∀ e ∈ amap, e.1 ∈ bufAnchors buf) →
      resolveGo buf amap = (buf.flatMap (resolveSpecItem amap), []) := by
  intro buf
  induction buf with
  | nil =>
    intro amap _ _ hsub
    cases amap with
    | nil => rfl
    | cons e t =>
      exact absurd (hsub e (List.mem_cons_self e t)) (by simp [bufAnchors])
  | cons it rest ih =>
    intro amap hnd hk hsub
    cases it with
    | line s =>
      have hb : bufAnchors (BufItem.line s :: rest) = bufAnchors rest := by
        simp [bufAnchors]
      rw [hb] at hnd hsub
      simp only [resolveGo, ih amap hnd hk hsub, List.flatMap_cons]
      rfl
    | anchor a =>
      have hb : bufAnchors (BufItem.anchor a :: rest) = a :: bufAnchors rest := by
        simp [bufAnchors]
      rw [hb] at hnd hsub
      have ha : a ∉ bufAnchors rest := (List.nodup_cons.mp hnd).1
      have hnd' : (bufAnchors rest).Nodup := (List.nodup_cons.mp hnd).2
      have hk' : ((adel amap a).map Prod.fst).Nodup :=
        hk.sublist ((adel_sublist amap a).map Prod.fst)
      have hsub' : ∀ e ∈ adel amap a, e.1 ∈ bufAnchors rest := by
        intro e he
        have h1 : e ∈ amap := mem_adel he
        have h2 : e.1 ≠ a := adel_keys_ne amap hk a e he
        rcases List.mem_cons.mp (hsub e h1) with h | h
        · exact absurd h h2
        · exact h
      have hrw : rest.flatMap (resolveSpecItem (adel amap a)) =
          rest.flatMap (resolveSpecItem amap) := by
        apply flatMap_congr_mem
        intro x hx
        cases x with
        | line s => rfl
        | anchor b =>
          have hbm : b ∈ bufAnchors rest := by
            simp only [bufAnchors, List.mem_filterMap]
            exact ⟨BufItem.anchor b, hx, rfl⟩
          have hne : b ≠ a := fun hba => ha (hba ▸ hbm)
          simp [resolveSpecItem, aget_adel_ne amap hne]
      simp only [resolveGo, ih (adel amap a) hnd' hk' hsub', hrw, List.flatMap_cons]
      rfl

/-- Full anchor resolution under the same hypotheses: assigned lines
replace their anchors in place and the trailing lines follow. -/
theorem resolveAnchors_spec (buf : List BufItem) (amap : List (ℕ × List String))
    (trailing : List String) (hnd : (bufAnchors buf).Nodup)
    (hk : (amap.map Prod.fst).Nodup) (hsub : ∀ e ∈ amap, e.1 ∈ bufAnchors buf) :
    resolveAnchors buf amap trailing = buf.flatMap (resolveSpecItem amap) ++ trailing := by
  unfold resolveAnchors
  rw [resolveGo_spec buf amap hnd hk hsub]
  simp

/-- The plain lines of a buffer survive anchor resolution in order. -/
theorem bufLines_sublist_resolveGo :
    ∀ (buf : List BufItem) (amap : List (ℕ × List String)),
      List.Sublist (bufLines buf) (resolveGo buf amap).1 := by
  intro buf
  induction buf with
  | nil => intro amap; simp [bufLines, resolveGo]
  | cons it rest ih =>
    intro amap
    cases it with
    | line s =>
      have hb : bufLines (BufItem.line s :: rest) = s :: bufLines rest := by simp [bufLines]
      rw [hb]
      exact (ih amap).cons₂ s
    | anchor a =>
      have hb : bufLines (BufItem.anchor a :: rest) = bufLines rest := by simp [bufLines]
      rw [hb]
      exact (ih (adel amap a)).trans (List.sublist_append_right _ _)

/-- A filter map of a list is a sublist of the filter map of the list
with a block inserted at any position. -/
theorem filterMap_sublist_insert {α β : Type} (f : α → Option β) (l ins : List α) (n : ℕ) :
    List.Sublist (List.filterMap f l) (List.filterMap f (l.take n ++ ins ++ l.drop n)) := by
  conv_lhs => rw [← List.take_append_drop n l]
  simp only [List.filterMap_append]
  rw [List.append_assoc]
  exact (List.Sublist.refl _).append (List.sublist_append_right _ _)

/-- The plain lines of a buffer survive the missing-defaults insertion
in order. -/
theorem bufLines_sublist_insert (buf items : List BufItem) :
    List.Sublist (bufLines buf) (bufLines (insertBeforeTail buf items)) :=
  filterMap_sublist_insert _ buf items _

/-- The plain lines of a buffer survive full anchor resolution in
order. -/
theorem sublist_resolveAnchors (buf : List BufItem) (amap : List (ℕ × List String))
    (trailing : List String) :
    List.Sublist (bufLines buf) (resolveAnchors buf amap trailing) := by
  simp only [resolveAnchors]
  exact (bufLines_sublist_resolveGo buf amap).trans
    ((List.sublist_append_left _ _).trans (List.sublist_append_left _ _))

/-- The plain lines of a section buffer appear, in order, in the
finalized output of the section. -/
theorem bufLines_sublist_finalize (seen : List (String × List String)) (agg : AggSt)
    (secName : String) (buf : List BufItem) :
    List.Sublist (bufLines buf) (finalizeSection seen agg secName buf).2 := by
  unfold finalizeSection
  by_cases h0 : secName == ""
  · rw [if_pos h0]
  · rw [if_neg h0]
    dsimp only
    refine List.Sublist.trans ?_ (sublist_resolveAnchors _ _ _)
    by_cases hm : (collectMissing agg secName ((aget seen secName).getD [])).2.isEmpty
    · rw [if_pos hm]
    · rw [if_neg hm]
      exact bufLines_sublist_insert _ _

/-- The condition under which a driver step inserts the synthesized
version line after an info-section header. -/
def insertsVersion (rv : Option String) (st : PState) (line : String) : Bool :=
  !isCommentLine line &&
    (match sectionMatch? line with
     | some name => renameSection (lowerS (pyStrip name)) == "info"
     | none => false) &&
    rv.isNone && !st.ikemenWritten

/-- The version-written flag is never cleared by a driver step. -/
theorem step_written_mono (rv : Option String) (st : PState) (line : String)
    (h : st.ikemenWritten = true) : (step rv st line).ikemenWritten = true := by
  unfold step
  by_cases hc : isCommentLine line
  · simp only [hc, if_true]
    exact h
  · simp only [hc, Bool.false_eq_true, if_false]
    cases hs : sectionMatch? line with
    | some name => simp [h]
    | none =>
      cases hkv : kvMatch? line with
      | some t =>
        obtain ⟨semi, ck, v⟩ := t
        dsimp only
        by_cases hf : (st.current == "info" && !semi && (lowerS ck == "ikemenversion")) = true
        · simp only [hf, if_true]
        · simp only [hf, Bool.false_eq_true, if_false]
          exact h
      | none => exact h

/-- The version-written flag stays set through any run of driver steps. -/
theorem foldl_written_mono (rv : Option String) :
    ∀ (lines : List String) (st : PState), st.ikemenWritten = true →
      (lines.foldl (step rv) st).ikemenWritten = true := by
  intro lines
  induction lines with
  | nil => intro st h; exact h
  | cons l t ih => intro st h; exact ih _ (step_written_mono rv st l h)

/-- A step whose insertion condition holds leaves the flag set. -/
theorem insertsVersion_step (rv : Option String) (st : PState) (line : String)
    (h : insertsVersion rv st line = true) : (step rv st line).ikemenWritten = true := by
  unfold insertsVersion at h
  simp only [Bool.and_eq_true, Bool.not_eq_true'] at h
  obtain ⟨⟨⟨h1, h2⟩, h3⟩, h4⟩ := h
  cases hs : sectionMatch? line with
  | none => rw [hs] at h2; exact absurd h2 (by simp)
  | some name =>
    rw [hs] at h2
    simp only [beq_iff_eq] at h2
    unfold step
    simp only [h1, Bool.false_eq_true, if_false, hs]
    simp [h2, h3, h4, Option.isNone_iff_eq_none.mp h3]

/-- The insertion condition requires the flag to be clear. -/
theorem insertsVersion_requires (rv : Option String) (st : PState) (line : String)
    (h : insertsVersion rv st line = true) : st.ikemenWritten = false := by
  unfold insertsVersion at h
  simp only [Bool.and_eq_true, Bool.not_eq_true'] at h
  exact h.2

/-- The forced version line passes through handle-line untouched: no rule
of the info section fires, so the reconstructed line keeps the original
key casing and the preserved inline comment. -/
theorem handle_line_info_version (st : AggSt) (ck ic : String)
    (h1 : pyStrip ck = ck) (h2 : lowerS ck = "ikemenversion")
    (h3 : splitValueComment ("1.0" ++ ic) = ("1.0", ic)) :
    handle_line st "info" ck ("1.0" ++ ic) "" none =
      (st, [BufItem.line (ck ++ " = " ++ "1.0" ++ ic)]) := by
  have hdata : lowerL ck.data = "ikemenversion".data := congrArg String.data h2
  have hsq : shouldStripAllQuotes ck = false := by
    unfold shouldStripAllQuotes
    rw [h1, h2]
    rfl
  have hek : endsKeyCi ck = false := by
    unfold endsKeyCi
    rw [hdata]
    rfl
  have hrm : remapMemberKey ck = (ck, false) := by
    unfold remapMemberKey
    rw [hdata]
    rfl
  have hbc : remapBoxcursor ck = (ck, false) := by
    unfold remapBoxcursor
    rw [hdata]
    rfl
  unfold handle_line handleTail
  rw [h3]
  simp only [hsq, hek, hrm, hbc]
  rfl

/-- C9: inside the info section, every active ikemenversion key-value
line has its value replaced by the literal 1.0 while its inline comment
is preserved, and the written flag is set; when an info section header
is read with no detected raw version and the flag still clear, the line
ikemenversion = 1.0 is inserted as the first buffered line right after
the header and the flag is set; and since the flag is monotone, the
insertion happens at most once per run. -/
theorem c9_info_version_forcing :
    (∀ (rv : Option String) (st : PState) (line ck v b ic : String),
        isCommentLine line = false →
        sectionMatch? line = none →
        kvMatch? line = some (false, ck, v) →
        st.current = "info" →
        pyStrip ck = ck → lowerS ck = "ikemenversion" →
        splitValueComment v = (b, ic) →
        splitValueComment ("1.0" ++ ic) = ("1.0", ic) →
        step rv st line =
          { st with
            seen := addSeen st.seen st.current (lowerS ck)
            ikemenWritten := true
            buffer := st.buffer ++ [BufItem.line (ck ++ " = " ++ "1.0" ++ ic)] }) ∧
    (∀ (rv : Option String) (st : PState) (line name : String),
        isCommentLine line = false →
        sectionMatch? line = some name →
        renameSection (lowerS (pyStrip name)) = "info" →
        rv = none → st.ikemenWritten = false →
        (step rv st line).buffer = [BufItem.line "ikemenversion = 1.0"] ∧
        (step rv st line).ikemenWritten = true) ∧
    (∀ (rv : Option String) (st0 : PState) (lines : List String) (i j : ℕ),
        i < j →
        insertsVersion rv ((lines.take i).foldl (step rv) st0) (lines.getD i "") = true →
        insertsVersion rv ((lines.take j).foldl (step rv) st0) (lines.getD j "") = false) := by
  refine ⟨?_, ?_, ?_⟩
  · intro rv st line ck v b ic hcom hsec hkv hcur h1 h2 hsplit hsplit2
    unfold step
    simp only [hcom, Bool.false_eq_true, if_false, hsec, hkv]
    rw [hcur, h2, hsplit]
    rw [if_pos (by rfl)]
    rw [handle_line_info_version st.agg ck ic h1 h2 hsplit2]
    rfl
  · intro rv st line name hcom hsec hren hrv hw
    subst hrv
    unfold step
    simp only [hcom, Bool.false_eq_true, if_false, hsec]
    constructor
    · simp [hren, hw]
    · simp [hren, hw]
  · intro rv st0 lines i j hij hi
    have hilen : i < lines.length := by
      by_contra hle
      push_neg at hle
      rw [List.getD_eq_default lines "" hle] at hi
      have hft : insertsVersion rv ((lines.take i).foldl (step rv) st0) "" = false := rfl
      rw [hft] at hi
      exact Bool.noConfusion hi
    have hgd : lines.getD i "" = lines[i] :=
      List.getD_eq_getElem lines "" hilen
    have hstep : ((lines.take (i + 1)).foldl (step rv) st0).ikemenWritten = true := by
      rw [List.take_succ, List.getElem?_eq_getElem hilen]
      rw [List.foldl_append]
      have happ := insertsVersion_step rv ((lines.take i).foldl (step rv) st0)
        (lines.getD i "") hi
      rw [hgd] at happ
      exact happ
    have hj : ((lines.take j).foldl (step rv) st0).ikemenWritten = true := by
      have hsplit : lines.take j = lines.take (i + 1) ++ (lines.drop (i + 1)).take (j - (i + 1)) := by
        rw [← List.take_add]
        congr 1
        omega
      rw [hsplit, List.foldl_append]
      exact foldl_written_mono rv _ _ hstep
    cases hx : insertsVersion rv ((lines.take j).foldl (step rv) st0) (lines.getD j "") with
    | false => rfl
    | true =>
      have hreq := insertsVersion_requires _ _ _ hx
      rw [hj] at hreq
      exact Bool.noConfusion hreq

/-- C9 witness: the forcing, the insertion and the at-most-once parts
applied at concrete inputs. -/
theorem c9_info_version_forcing_witness :
    (step none ⟨"info", true, false, [], [], AggSt.empty, []⟩ "ikemenversion = 2.0" =
      { (⟨"info", true, false, [], [], AggSt.empty, []⟩ : PState) with
        seen := addSeen [] "info" (lowerS "ikemenversion")
        ikemenWritten := true
        buffer := [BufItem.line ("ikemenversion" ++ " = " ++ "1.0" ++ "")] }) ∧
    ((step none ⟨"", false, false, [], [], AggSt.empty, []⟩ "[Info]").buffer =
        [BufItem.line "ikemenversion = 1.0"] ∧
      (step none ⟨"", false, false, [], [], AggSt.empty, []⟩ "[Info]").ikemenWritten = true) ∧
    insertsVersion none ((["[Info]", "[Info]"].take 1).foldl (step none)
        ⟨"", false, false, [], [], AggSt.empty, []⟩) (["[Info]", "[Info]"].getD 1 "") = false := by
  refine ⟨?_, ?_, ?_⟩
  · exact c9_info_version_forcing.1 none ⟨"info", true, false, [], [], AggSt.empty, []⟩
      "ikemenversion = 2.0" "ikemenversion" "2.0" "2.0" "" rfl rfl rfl rfl rfl rfl rfl rfl
  · exact c9_info_version_forcing.2.1 none ⟨"", false, false, [], [], AggSt.empty, []⟩
      "[Info]" "Info" rfl rfl rfl rfl rfl
  · exact c9_info_version_forcing.2.2 none ⟨"", false, false, [], [], AggSt.empty, []⟩
      ["[Info]", "[Info]"] 0 1 (by omega) rfl

/-- C5 counterexample: the claim says a key matching a deletion pattern
yields zero output lines even when the line is commented out; but the
stream driver passes any semicolon-led line through verbatim before the
deletion rules run, so the commented deleted-key line appears in the
output. -/
theorem c5_deletion_counterexample :
    processIni (some true) (some "0.9") ["[Option Info]", ";menu.uselocalcoord = 1"] =
      ["[Option Info]", "keymenu.pos = 0, 0", "keymenu.window.margins.y = 0, 0",
       "keymenu.window.visibleitems = 0", ";menu.uselocalcoord = 1"] ∧
    deleteMatch "option info" "menu.uselocalcoord" = true ∧
    ";menu.uselocalcoord = 1" ∈
      processIni (some true) (some "0.9") ["[Option Info]", ";menu.uselocalcoord = 1"] := by
  refine ⟨by rfl, by rfl, ?_⟩
  rw [(by rfl :
    processIni (some true) (some "0.9") ["[Option Info]", ";menu.uselocalcoord = 1"] =
      ["[Option Info]", "keymenu.pos = 0, 0", "keymenu.window.margins.y = 0, 0",
       "keymenu.window.visibleitems = 0", ";menu.uselocalcoord = 1"])]
  simp

/-- C5 (amended): an active key-value line whose key matches a deletion
pattern of its section yields zero output lines, regardless of its
value, with no rule stage running and no state change; commented-out
lines bypass the rule engine entirely and are buffered verbatim. -/
theorem c5_deletion_amended :
    (∀ (st : AggSt) (sec key v c : String) (rl : Option String),
        deleteMatch sec key = true → handle_line st sec key v c rl = (st, [])) ∧
    (∀ (rv : Option String) (st : PState) (line : String),
        isCommentLine line = true →
        step rv st line = { st with buffer := st.buffer ++ [BufItem.line line] }) := by
  constructor
  · intro st sec key v c rl h
    unfold handle_line
    rw [if_pos h]
  · intro rv st line h
    unfold step
    rw [if_pos h]

/-- C5 witness: the amended deletion behaviour at concrete inputs. -/
theorem c5_deletion_amended_witness :
    handle_line AggSt.empty "option info" "menu.uselocalcoord" "1" "" none =
      (AggSt.empty, []) ∧
    step none ⟨"option info", false, false, [], [], AggSt.empty, []⟩ ";x" =
      { (⟨"option info", false, false, [], [], AggSt.empty, []⟩ : PState) with
        buffer := [BufItem.line ";x"] } := by
  constructor
  · exact c5_deletion_amended.1 AggSt.empty "option info" "menu.uselocalcoord" "1" "" none rfl
  · exact c5_deletion_amended.2 none ⟨"option info", false, false, [], [], AggSt.empty, []⟩ ";x" rfl

/-- C8: a line matching neither the section-header shape nor the
key-value shape is buffered unchanged by the driver with no other state
change, and the plain lines of a section buffer appear in the finalized
section output as a sublist, keeping their relative order; the
processing functions are total, so malformed input cannot abort a
run. -/
theorem c8_verbatim_preservation :
    (∀ (rv : Option String) (st : PState) (line : String),
        sectionMatch? line = none → kvMatch? line = none →
        step rv st line = { st with buffer := st.buffer ++ [BufItem.line line] }) ∧
    (∀ (seen : List (String × List String)) (agg : AggSt) (secName : String)
        (buf : List BufItem),
        List.Sublist (bufLines buf) (finalizeSection seen agg secName buf).2) := by
  constructor
  · intro rv st line hs hk
    unfold step
    by_cases hc : isCommentLine line
    · rw [if_pos hc]
    · rw [if_neg hc, hs, hk]
  · exact bufLines_sublist_finalize

/-- C8 witness: verbatim passthrough and order preservation at concrete
inputs. -/
theorem c8_verbatim_preservation_witness :
    step none ⟨"", false, false, [], [], AggSt.empty, []⟩ "hello world" =
      { (⟨"", false, false, [], [], AggSt.empty, []⟩ : PState) with
        buffer := [BufItem.line "hello world"] } ∧
    List.Sublist (bufLines [BufItem.line "a", BufItem.anchor 1, BufItem.line "b"])
      (finalizeSection [] AggSt.empty "select info"
        [BufItem.line "a", BufItem.anchor 1, BufItem.line "b"]).2 := by
  constructor
  · exact c8_verbatim_preservation.1 none ⟨"", false, false, [], [], AggSt.empty, []⟩
      "hello world" rfl rfl
  · exact c8_verbatim_preservation.2 [] AggSt.empty "select info"
      [BufItem.line "a", BufItem.anchor 1, BufItem.line "b"]

/-- C6: on a key matching both a value-rewrite rule and a key-rename
rule (the winquote spacing key of the victory section), every renamed
output line carries the rewritten value — the value modification runs
before the key transformation — and the original value never
survives. -/
theorem c6_rule_precedence :
    (∀ (st : AggSt) (v : String) (rl : Option String),
        handle_line st "victory screen" "winquote.spacing" v "" rl =
          (st, [BufItem.line ("winquote.textspacing" ++ " = " ++
            ((if (unwrapQuotes (splitValueComment v).1).1 then
                "\"" ++ subSecondOfPair (unwrapQuotes (splitValueComment v).1).2 ++ "\""
              else subSecondOfPair (unwrapQuotes (splitValueComment v).1).2) ++
              (splitValueComment v).2))])) ∧
    handle_line AggSt.empty "victory screen" "winquote.spacing" "3,5" ""
        (some "winquote.spacing = 3,5") =
      (AggSt.empty, [BufItem.line "winquote.textspacing = 5"]) ∧
    subSecondOfPair "3,5" = "5" := by
  refine ⟨?_, by rfl, by rfl⟩
  intro st v rl
  rfl

/-- C7: for keys ending in the dot-key suffix all quote characters are
removed and the value is renormalized from an ampersand list to a
comma-space list; for the glyphs key all quote characters are removed;
for any other key a fully wrapped value keeps its quote wrapping; and
the key-list example rewrites as the spec states. -/
theorem c7_key_list_and_quotes :
    (∀ (st : AggSt) (v : String),
        handle_line st "storyboard" "menu.done.key" v "" none =
          (st, [BufItem.line ("menu.done.key" ++ " = " ++
            (keyListJoin (removeQuotes (unwrapQuotes (splitValueComment v).1).2) ++
              (splitValueComment v).2))])) ∧
    (∀ (st : AggSt) (v : String),
        handle_line st "storyboard" "glyphs" v "" none =
          (st, [BufItem.line ("glyphs" ++ " = " ++
            (removeQuotes (unwrapQuotes (splitValueComment v).1).2 ++
              (splitValueComment v).2))])) ∧
    (∀ (st : AggSt) (v : String),
        handle_line st "storyboard" "pos" v "" none =
          (st, [BufItem.line ("pos" ++ " = " ++
            ((if (unwrapQuotes (splitValueComment v).1).1 then
                "\"" ++ (unwrapQuotes (splitValueComment v).1).2 ++ "\""
              else (unwrapQuotes (splitValueComment v).1).2) ++
              (splitValueComment v).2))])) ∧
    handle_line AggSt.empty "storyboard" "menu.done.key" "a & b &c" "" none =
      (AggSt.empty, [BufItem.line "menu.done.key = a, b, c"]) := by
  refine ⟨?_, ?_, ?_, by rfl⟩
  · intro st v
    rfl
  · intro st v
    rfl
  · intro st v
    rfl


/-- C2 counterexample: the claim says a velocity slot whose kind has no
facing falls back to the plain kind's facing and then to one; but for a
plain-kind slot with no plain facing, the code falls back to the face
kind's facing.  With a face facing of minus one recorded and no plain
facing, the claim predicts a velocity of five; the code emits minus
five. -/
theorem c2_velocity_counterexample :
    processIni (some true) (some "0.9")
        ["[VS Screen]", "p1.face.facing = -1", "p1.slide.speed = 5, 0"] =
      ["[VS Screen]", "p1.face.facing = -1", "p1.velocity = -5, 0"] ∧
    "p1.velocity = 5, 0" ∉
      processIni (some true) (some "0.9")
        ["[VS Screen]", "p1.face.facing = -1", "p1.slide.speed = 5, 0"] ∧
    resolveFacing [(("vs screen", 1, Kind.face), -1)] "vs screen" 1 Kind.plain = -1 := by
  have he : processIni (some true) (some "0.9")
      ["[VS Screen]", "p1.face.facing = -1", "p1.slide.speed = 5, 0"] =
    ["[VS Screen]", "p1.face.facing = -1", "p1.velocity = -5, 0"] := by
    with_unfolding_all decide
  refine ⟨he, ?_, by with_unfolding_all decide⟩
  rw [he]
  decide

/-- C2 (amended): each recorded velocity slot flushes to one line whose
value is the speed pair with its first component multiplied by the
resolved facing; the facing recorded for the slot's own kind is used
when present, otherwise the plain kind falls back to the face kind's
facing while the face kinds fall back to the plain kind's facing, and
one is used when the fallback is also absent; the spec's own example
still holds. -/
theorem c2_velocity_amended :
    (∀ (st : AggSt) (sect : String) (p : ℕ) (k : Kind) (vx vy : ℚ) (a : ℕ),
        (sect = "select info" ∨ sect = "vs screen" ∨ sect = "victory screen") →
        st.vels = [((sect, p, k), ⟨(vx, vy), some a⟩)] →
        flushVelocity st sect =
          ([(a, [velKeyName sect p k ++ " = " ++
              fmtPair (vx * resolveFacing st.facings sect p k) vy])], [],
            { st with vels := [], facings := st.facings.filter (fun e => e.1.1 != sect) })) ∧
    (∀ (facings : List (SlotKey × ℚ)) (sec : String) (p : ℕ),
        resolveFacing facings sec p Kind.plain =
          (aget facings (sec, p, Kind.plain)).getD
            ((aget facings (sec, p, Kind.face)).getD 1) ∧
        resolveFacing facings sec p Kind.face =
          (aget facings (sec, p, Kind.face)).getD
            ((aget facings (sec, p, Kind.plain)).getD 1) ∧
        resolveFacing facings sec p Kind.face2 =
          (aget facings (sec, p, Kind.face2)).getD
            ((aget facings (sec, p, Kind.plain)).getD 1)) ∧
    processIni (some true) (some "0.9")
        ["[VS Screen]", "p1.facing = -1", "p1.slide.speed = 5, 0"] =
      ["[VS Screen]", "p1.facing = -1", "p1.velocity = -5, 0"] := by
  refine ⟨?_, ?_, by with_unfolding_all decide⟩
  · intro st sect p k vx vy a hsec hvels
    rcases hsec with h | h | h <;> subst h <;> (unfold flushVelocity; rw [hvels]; rfl)
  · intro facings sec p
    refine ⟨?_, ?_, ?_⟩
    · cases h : aget facings (sec, p, Kind.plain) <;> simp [resolveFacing, h]
    · cases h : aget facings (sec, p, Kind.face) <;> simp [resolveFacing, h]
    · cases h : aget facings (sec, p, Kind.face2) <;> simp [resolveFacing, h]

/-- C2 witness: the amended flush applied to a concrete slot exercising
the plain-to-face fallback. -/
theorem c2_velocity_amended_witness :
    flushVelocity ⟨[], [], [(("vs screen", 1, Kind.plain), ⟨(5, 0), some 7⟩)],
        [(("vs screen", 1, Kind.face), -1)], 7⟩ "vs screen" =
      ([(7, [velKeyName "vs screen" 1 Kind.plain ++ " = " ++
          fmtPair (5 * resolveFacing [(("vs screen", 1, Kind.face), -1)] "vs screen" 1 Kind.plain) 0])],
        [], ⟨[], [], [], [], 7⟩) :=
  c2_velocity_amended.1
    ⟨[], [], [(("vs screen", 1, Kind.plain), ⟨(5, 0), some 7⟩)],
      [(("vs screen", 1, Kind.face), -1)], 7⟩
    "vs screen" 1 Kind.plain 5 0 7 (Or.inr (Or.inl rfl)) rfl

/-- The engine on a line list, with the parameters the caller passes
when an info section with an old version exists in the file. -/
def migrate (ls : List String) : List String :=
  processIni (some true) (some "0.9") ls

/-- C4 counterexample: re-running the migrated output of a select-info
section through the engine is not byte-identical — the aggregated base
offset line is recaptured while its done companion passes through, so
the done line is duplicated. -/
theorem c4_idempotence_counterexample :
    migrate (migrate ["[Select Info]", "p1.offset = 11, 21"]) ≠
      migrate ["[Select Info]", "p1.offset = 11, 21"] := by
  with_unfolding_all decide

/-- C4 (amended): migration is not idempotent in general: the done-state
roster sections re-capture the base offset shapes their own flush emits,
duplicating the done variant lines on a second pass.  Sections whose
migrated lines match no capture pattern again, such as the victory
screen's single aggregated offset or the music renames, do re-migrate to
byte-identical output. -/
theorem c4_idempotence_amended :
    migrate ["[Select Info]", "p1.offset = 11, 21"] =
      ["[Select Info]", "p1.offset = 11, 21", "p1.done.offset = 11, 21"] ∧
    migrate (migrate ["[Select Info]", "p1.offset = 11, 21"]) =
      ["[Select Info]", "p1.offset = 11, 21", "p1.done.offset = 11, 21",
       "p1.done.offset = 11, 21"] ∧
    migrate ["[Victory Screen]", "p1.offset = 11, 21"] =
      ["[Victory Screen]", "p1.offset = 11, 21"] ∧
    migrate (migrate ["[Victory Screen]", "p1.offset = 11, 21"]) =
      migrate ["[Victory Screen]", "p1.offset = 11, 21"] ∧
    migrate (migrate ["[Music]", "continue.end.bgm = song.mp3"]) =
      migrate ["[Music]", "continue.end.bgm = song.mp3"] := by
  refine ⟨?_, ?_, ?_, ?_, ?_⟩ <;> with_unfolding_all decide

/-- C10: a later contribution to an already-populated aggregation slot
overwrites the stored component (base value, member override, or speed
pair) in place, keeps the slot's existing anchor, and returns no new
anchor, so the flushed output reflects the last occurrence at the
position of the first; the concrete run shows the flushed line carrying
the second value at the first line's position. -/
theorem c10_last_write_wins :
    (∀ (st : AggSt) (sect key v2 : String) (p : ℕ) (mi : Option ℕ) (k : Kind)
        (s0 : PairSlot) (a : ℕ),
        rosterSections.contains (lowerS sect) = true →
        pairKeyClass "offset".data key = some (p, mi, k) →
        aget st.offs (lowerS sect, p, k) = some s0 →
        s0.anchor = some a →
        recordOffset st sect key v2 =
          (⟨aset st.offs (lowerS sect, p, k)
              (match mi with
               | none => ⟨some (parsePairD 0 v2), s0.members, s0.anchor⟩
               | some i => ⟨s0.base, aset s0.members i (parsePairD 0 v2), s0.anchor⟩),
            st.scales, st.vels, st.facings, st.counter⟩, true, none)) ∧
    (∀ (st : AggSt) (sect key v2 : String) (p : ℕ) (mi : Option ℕ) (k : Kind)
        (s0 : PairSlot) (a : ℕ),
        rosterSections.contains (lowerS sect) = true →
        pairKeyClass "scale".data key = some (p, mi, k) →
        aget st.scales (lowerS sect, p, k) = some s0 →
        s0.anchor = some a →
        recordScale st sect key v2 =
          (⟨st.offs, aset st.scales (lowerS sect, p, k)
              (match mi with
               | none => ⟨some (parsePairD 1 v2), s0.members, s0.anchor⟩
               | some i => ⟨s0.base, aset s0.members i (parsePairD 1 v2), s0.anchor⟩),
            st.vels, st.facings, st.counter⟩, true, none)) ∧
    (∀ (st : AggSt) (sect key v2 : String) (p : ℕ) (k : Kind)
        (slot : VelSlot) (a : ℕ),
        rosterSections.contains (lowerS sect) = true →
        velKeyClass (lowerS sect) key = some (p, k) →
        aget st.vels (lowerS sect, p, k) = some slot →
        slot.anchor = some a →
        recordVelocity st sect key v2 =
          (⟨st.offs, st.scales,
            aset st.vels (lowerS sect, p, k) ⟨parsePairD 0 v2, slot.anchor⟩,
            st.facings, st.counter⟩, true, none)) ∧
    processIni (some true) (some "0.9")
        ["[VS Screen]", "p1.offset = 1, 2", "p1.offset = 5, 6"] =
      ["[VS Screen]", "p1.offset = 5, 6", "p1.done.offset = 5, 6"] := by
  refine ⟨?_, ?_, ?_, by with_unfolding_all decide⟩
  · intro st sect key v2 p mi k s0 a hros hcls hget hanch
    unfold recordOffset
    simp only [hros, Bool.not_true, Bool.false_eq_true, if_false]
    rw [hcls]
    dsimp only
    rw [hget]
    cases mi <;> (dsimp only [Option.getD_some]; rw [hanch])
  · intro st sect key v2 p mi k s0 a hros hcls hget hanch
    unfold recordScale
    simp only [hros, Bool.not_true, Bool.false_eq_true, if_false]
    rw [hcls]
    dsimp only
    rw [hget]
    cases mi <;> (dsimp only [Option.getD_some]; rw [hanch])
  · intro st sect key v2 p k slot a hros hcls hget hanch
    unfold recordVelocity
    simp only [hros, Bool.not_true, Bool.false_eq_true, if_false]
    rw [hcls]
    dsimp only
    rw [hget]
    dsimp only
    rw [hanch]

/-- C10 witness: overwriting records applied at concrete slot states. -/
theorem c10_last_write_wins_witness :
    recordOffset ⟨[(("vs screen", 1, Kind.plain), ⟨some (1, 2), [], some 3⟩)], [], [], [], 3⟩
        "vs screen" "p1.offset" "5, 6" =
      (⟨aset [(("vs screen", 1, Kind.plain), ⟨some (1, 2), [], some 3⟩)]
          ("vs screen", 1, Kind.plain) ⟨some (parsePairD 0 "5, 6"), [], some 3⟩,
        [], [], [], 3⟩, true, none) ∧
    recordScale ⟨[], [(("vs screen", 1, Kind.plain), ⟨none, [(2, (1, 2))], some 4⟩)], [], [], 4⟩
        "vs screen" "p1.member2.scale" "5, 6" =
      (⟨[], aset [(("vs screen", 1, Kind.plain), ⟨none, [(2, (1, 2))], some 4⟩)]
          ("vs screen", 1, Kind.plain)
          ⟨none, aset [(2, (1, 2))] 2 (parsePairD 1 "5, 6"), some 4⟩,
        [], [], 4⟩, true, none) ∧
    recordVelocity ⟨[], [], [(("vs screen", 1, Kind.plain), ⟨(1, 2), some 5⟩)], [], 5⟩
        "vs screen" "p1.slide.speed" "5, 6" =
      (⟨[], [], aset [(("vs screen", 1, Kind.plain), ⟨(1, 2), some 5⟩)]
          ("vs screen", 1, Kind.plain) ⟨parsePairD 0 "5, 6", some 5⟩,
        [], 5⟩, true, none) := by
  refine ⟨?_, ?_, ?_⟩
  · exact c10_last_write_wins.1
      ⟨[(("vs screen", 1, Kind.plain), ⟨some (1, 2), [], some 3⟩)], [], [], [], 3⟩
      "vs screen" "p1.offset" "5, 6" 1 none Kind.plain ⟨some (1, 2), [], some 3⟩ 3
      rfl rfl rfl rfl
  · exact c10_last_write_wins.2.1
      ⟨[], [(("vs screen", 1, Kind.plain), ⟨none, [(2, (1, 2))], some 4⟩)], [], [], 4⟩
      "vs screen" "p1.member2.scale" "5, 6" 1 (some 2) Kind.plain
      ⟨none, [(2, (1, 2))], some 4⟩ 4 rfl rfl rfl rfl
  · exact c10_last_write_wins.2.2.1
      ⟨[], [], [(("vs screen", 1, Kind.plain), ⟨(1, 2), some 5⟩)], [], 5⟩
      "vs screen" "p1.slide.speed" "5, 6" 1 Kind.plain ⟨(1, 2), some 5⟩ 5
      rfl rfl rfl rfl

/-- Claim C1, spec side, one member index: the value is the
component-wise sum of the base value and the member override, each
defaulting to zero; the target player is the member's entry of the
1-3-5-7 / 2-4-6-8 table; a done variant accompanies the base line in
select info and vs screen only. -/
def specOffsetMemberLines (sec : String) (p : ℕ) (kind : Kind)
    (base : Option (ℚ × ℚ)) (members : List (ℕ × (ℚ × ℚ))) (m : ℕ) : List String :=
  let b := base.getD (0, 0)
  let mo := (aget members m).getD (0, 0)
  let value := fmtPair (b.1 + mo.1) (b.2 + mo.2)
  let target := "p" ++ natStr (pmMap p m) ++ kindSuffix kind
  (target ++ ".offset = " ++ value) ::
    (if sec == "select info" || sec == "vs screen" then
      [target ++ ".done.offset = " ++ value]
    else [])

/-- Claim C1, spec side, whole group: one block of lines per member
index holding an override, plus member one whenever a base value or an
explicit member-one override exists, in increasing member order. -/
def offsetFlushSpecLines (sec : String) (p : ℕ) (kind : Kind)
    (base : Option (ℚ × ℚ)) (members : List (ℕ × (ℚ × ℚ))) : List String :=
  (List.range 4).flatMap fun i =>
    if (aget members (i + 1)).isSome || (i + 1 == 1 && base.isSome) then
      specOffsetMemberLines sec p kind base members (i + 1)
    else []

/-- The per-member lines of the code-side flush agree with the spec-side
reading. -/
theorem offLinesFor_spec (sec : String) (p : ℕ) (kind : Kind)
    (base : Option (ℚ × ℚ)) (members : List (ℕ × (ℚ × ℚ))) (anch : Option ℕ) (m : ℕ) :
    offLinesFor sec p kind ⟨base, members, anch⟩ m =
      specOffsetMemberLines sec p kind base members m := by
  unfold offLinesFor specOffsetMemberLines
  cases h : (sec == "select info" || sec == "vs screen") <;> simp [h]

/-- The flat map of the code-side member iteration equals the spec-side
group lines. -/
theorem memberIdxs_lines (sec : String) (p : ℕ) (kind : Kind)
    (base : Option (ℚ × ℚ)) (members : List (ℕ × (ℚ × ℚ))) (anch : Option ℕ) :
    (memberIdxsOf ⟨base, members, anch⟩).flatMap
        (offLinesFor sec p kind ⟨base, members, anch⟩) =
      offsetFlushSpecLines sec p kind base members := by
  unfold memberIdxsOf offsetFlushSpecLines
  rw [flatMap_filterMap]
  apply flatMap_congr_mem
  intro x hx
  dsimp only
  cases hc : ((aget members (x + 1)).isSome || (x + 1 == 1 && base.isSome)) with
  | false => simp [hc, Option.elim]
  | true => simp [hc, Option.elim, offLinesFor_spec]

/-- Flushing a roster section holding exactly one offset slot emits the
spec-side lines at the slot's anchor (or nothing at all when the group
is empty), appends nothing at the tail, and deletes the slot. -/
theorem flushOffsets_single_slot (sect : String) (p : ℕ) (kind : Kind)
    (base : Option (ℚ × ℚ)) (members : List (ℕ × (ℚ × ℚ))) (anch : ℕ)
    (scales : List (SlotKey × PairSlot)) (vels : List (SlotKey × VelSlot))
    (facings : List (SlotKey × ℚ)) (ctr : ℕ)
    (hq : (sect == "") = false) (hl : lowerS sect = sect)
    (hr : rosterSections.contains sect = true) :
    flushOffsets ⟨[((sect, p, kind), ⟨base, members, some anch⟩)],
        scales, vels, facings, ctr⟩ sect =
      ((if offsetFlushSpecLines sect p kind base members = [] then []
        else [(anch, offsetFlushSpecLines sect p kind base members)]),
       [], ⟨[], scales, vels, facings, ctr⟩) := by
  unfold flushOffsets
  simp only [hq, Bool.false_eq_true, if_false, hl, hr, Bool.not_true, List.foldl_cons,
    List.foldl_nil, bne_self_eq_false]
  cases hE : (memberIdxsOf (⟨base, members, some anch⟩ : PairSlot)).isEmpty with
  | true =>
    have hnil : memberIdxsOf (⟨base, members, some anch⟩ : PairSlot) = [] := by
      cases hmm : memberIdxsOf (⟨base, members, some anch⟩ : PairSlot) with
      | nil => rfl
      | cons a t =>
        rw [hmm] at hE
        exact Bool.noConfusion hE
    have hspec : offsetFlushSpecLines sect p kind base members = [] := by
      rw [← memberIdxs_lines sect p kind base members (some anch), hnil]
      rfl
    rw [if_pos hspec]
    simp [hE]
  | false =>
    have hspec := memberIdxs_lines sect p kind base members (some anch)
    have hnn : offsetFlushSpecLines sect p kind base members ≠ [] := by
      obtain ⟨m, idxs', hcons⟩ :
          ∃ m t, memberIdxsOf (⟨base, members, some anch⟩ : PairSlot) = m :: t := by
        cases hmm : memberIdxsOf (⟨base, members, some anch⟩ : PairSlot) with
        | nil =>
          rw [hmm] at hE
          exact Bool.noConfusion hE
        | cons a t => exact ⟨a, t, rfl⟩
      intro hc
      rw [← hspec, hcons, List.flatMap_eq_nil_iff] at hc
      have hm := hc m (List.mem_cons_self m idxs')
      unfold offLinesFor at hm
      cases hb : (sect == "select info" || sect == "vs screen") <;>
        simp [hb] at hm
    rw [if_neg hnn]
    simp [hE, hspec, extendAnchor, aget]

/-- C1: at section flush, each offset aggregation slot of a roster
section (select info, vs screen, victory screen) is emitted as one
line per member index holding an override — plus member one whenever a
base value or member-one override exists — in increasing member order;
each line's value is the component-wise sum of base and override with
zero defaults, its target player is taken from the 1-3-5-7 / 2-4-6-8
member table, and a .done. companion line is added in select info and
vs screen but not in the victory screen; the lines land at the slot's
anchor, nothing is appended at the tail, and the slot is cleared.  The
whole pipeline realises this on the example with base p1.offset =
10, 20 and override p1.member2.offset = 1, 1. -/
theorem c1_offset_aggregation :
    (∀ (sect : String) (p : ℕ) (kind : Kind) (base : Option (ℚ × ℚ))
        (members : List (ℕ × (ℚ × ℚ))) (anch : ℕ)
        (scales : List (SlotKey × PairSlot)) (vels : List (SlotKey × VelSlot))
        (facings : List (SlotKey × ℚ)) (ctr : ℕ),
        (sect = "select info" ∨ sect = "vs screen" ∨ sect = "victory screen") →
        flushOffsets ⟨[((sect, p, kind), ⟨base, members, some anch⟩)],
            scales, vels, facings, ctr⟩ sect =
          ((if offsetFlushSpecLines sect p kind base members = [] then []
            else [(anch, offsetFlushSpecLines sect p kind base members)]),
           [], ⟨[], scales, vels, facings, ctr⟩)) ∧
    offsetFlushSpecLines "select info" 1 Kind.plain (some (10, 20)) [(2, (1, 1))] =
      ["p1.offset = 10, 20", "p1.done.offset = 10, 20",
       "p3.offset = 11, 21", "p3.done.offset = 11, 21"] ∧
    processIni (some true) (some "0.9")
        ["[Select Info]", "p1.offset = 10, 20", "p1.member2.offset = 1, 1"] =
      ["[Select Info]", "p1.offset = 10, 20", "p1.done.offset = 10, 20",
       "p3.offset = 11, 21", "p3.done.offset = 11, 21"] := by
  refine ⟨?_, by with_unfolding_all decide, by with_unfolding_all decide⟩
  intro sect p kind base members anch scales vels facings ctr hsec
  rcases hsec with h | h | h <;> subst h <;>
    exact flushOffsets_single_slot _ p kind base members anch scales vels facings ctr
      rfl rfl rfl

theorem c1_offset_aggregation_witness :
    ("select info" = "select info" ∨ "select info" = "vs screen" ∨
      "select info" = "victory screen") ∧
    flushOffsets ⟨[(("select info", 1, Kind.plain),
        ⟨some (10, 20), [(2, (1, 1))], some 7⟩)], [], [], [], 9⟩ "select info" =
      ((if offsetFlushSpecLines "select info" 1 Kind.plain (some (10, 20))
            [(2, (1, 1))] = [] then []
        else [(7, offsetFlushSpecLines "select info" 1 Kind.plain (some (10, 20))
            [(2, (1, 1))])]),
       [], ⟨[], [], [], [], 9⟩) :=
  ⟨Or.inl rfl,
    c1_offset_aggregation.1 "select info" 1 Kind.plain (some (10, 20)) [(2, (1, 1))]
      7 [] [] [] 9 (Or.inl rfl)⟩

/-- C3: every aggregation slot owns at most one anchor.  A slot's first
contributing line allocates a fresh anchor (the bumped global counter)
and returns it so the driver can place the anchor token at that line's
buffer position; any later contributing line keeps the stored anchor
and returns none, so no second anchor ever exists for the slot.  At
finalize, when the buffer's anchors are duplicate-free and every
assignment targets a buffer anchor, anchor resolution replaces each
anchor in place exactly once by its assigned lines, an anchor with no
assigned lines vanishing without trace, with trailing lines after.
The spec's interleaved example consequently puts the synthesized lines
at the first contributing line's position with the comment retained
after them. -/
theorem c3_anchor_invariant :
    (∀ (st : AggSt) (sect key v : String) (p : ℕ) (mi : Option ℕ) (k : Kind),
        rosterSections.contains (lowerS sect) = true →
        pairKeyClass "offset".data key = some (p, mi, k) →
        aget st.offs (lowerS sect, p, k) = none →
        recordOffset st sect key v =
          (⟨aset st.offs (lowerS sect, p, k)
              (match mi with
               | none => ⟨some (parsePairD 0 v), [], some (st.counter + 1)⟩
               | some i => ⟨none, aset [] i (parsePairD 0 v), some (st.counter + 1)⟩),
            st.scales, st.vels, st.facings, st.counter + 1⟩,
           true, some (st.counter + 1))) ∧
    (∀ (st : AggSt) (sect key v : String) (p : ℕ) (mi : Option ℕ) (k : Kind)
        (s0 : PairSlot) (a : ℕ),
        rosterSections.contains (lowerS sect) = true →
        pairKeyClass "offset".data key = some (p, mi, k) →
        aget st.offs (lowerS sect, p, k) = some s0 →
        s0.anchor = some a →
        (recordOffset st sect key v).2.2 = none ∧
        (aget (recordOffset st sect key v).1.offs (lowerS sect, p, k)).map
            PairSlot.anchor = some (some a)) ∧
    (∀ (buf : List BufItem) (amap : List (ℕ × List String)) (trailing : List String),
        (bufAnchors buf).Nodup → (amap.map Prod.fst).Nodup →
        (∀ e ∈ amap, e.1 ∈ bufAnchors buf) →
        resolveAnchors buf amap trailing =
          buf.flatMap (resolveSpecItem amap) ++ trailing) ∧
    processIni (some true) (some "0.9")
        ["[Select Info]", "p1.offset = 1,1", "; a comment", "p1.member2.offset = 2,2"] =
      ["[Select Info]", "p1.offset = 1, 1", "p1.done.offset = 1, 1",
       "p3.offset = 3, 3", "p3.done.offset = 3, 3", "; a comment"] := by
  refine ⟨?_, ?_, ?_, by with_unfolding_all decide⟩
  · intro st sect key v p mi k hros hcls hget
    unfold recordOffset
    simp only [hros, Bool.not_true, Bool.false_eq_true, if_false]
    rw [hcls]
    dsimp only
    rw [hget]
    cases mi <;> dsimp only [Option.getD_none]
  · intro st sect key v p mi k s0 a hros hcls hget hanch
    unfold recordOffset
    simp only [hros, Bool.not_true, Bool.false_eq_true, if_false]
    rw [hcls]
    dsimp only
    rw [hget]
    cases mi <;>
      (dsimp only [Option.getD_some]; rw [hanch];
       exact ⟨rfl, by rw [aget_aset_self]; rfl⟩)
  · exact fun buf amap trailing h1 h2 h3 => resolveAnchors_spec buf amap trailing h1 h2 h3

/-- C3 witness: fresh allocation on an empty state, anchor preservation
on a populated slot, and in-place resolution of a concrete buffer. -/
theorem c3_anchor_invariant_witness :
    recordOffset AggSt.empty "select info" "p1.offset" "1,1" =
      (⟨aset [] ("select info", 1, Kind.plain)
          ⟨some (parsePairD 0 "1,1"), [], some 1⟩, [], [], [], 1⟩, true, some 1) ∧
    ((recordOffset ⟨[(("vs screen", 1, Kind.face), ⟨some (2, 3), [], some 4⟩)],
          [], [], [], 4⟩ "vs screen" "p1.face.offset" "9, 9").2.2 = none ∧
      (aget (recordOffset ⟨[(("vs screen", 1, Kind.face), ⟨some (2, 3), [], some 4⟩)],
          [], [], [], 4⟩ "vs screen" "p1.face.offset" "9, 9").1.offs
          ("vs screen", 1, Kind.face)).map PairSlot.anchor = some (some 4)) ∧
    resolveAnchors [BufItem.line "x", BufItem.anchor 1, BufItem.line "y", BufItem.anchor 2]
        [(1, ["a", "b"])] ["t"] =
      [BufItem.line "x", BufItem.anchor 1, BufItem.line "y",
        BufItem.anchor 2].flatMap (resolveSpecItem [(1, ["a", "b"])]) ++ ["t"] := by
  refine ⟨?_, ?_, ?_⟩
  · exact c3_anchor_invariant.1 AggSt.empty "select info" "p1.offset" "1,1"
      1 none Kind.plain rfl rfl rfl
  · exact c3_anchor_invariant.2.1
      ⟨[(("vs screen", 1, Kind.face), ⟨some (2, 3), [], some 4⟩)], [], [], [], 4⟩
      "vs screen" "p1.face.offset" "9, 9" 1 none Kind.face
      ⟨some (2, 3), [], some 4⟩ 4 rfl rfl rfl rfl
  · exact c3_anchor_invariant.2.2.1
      [BufItem.line "x", BufItem.anchor 1, BufItem.line "y", BufItem.anchor 2]
      [(1, ["a", "b"])] ["t"] (by decide) (by decide) (by decide)
